import Mathlib

/-!
# CVLImage: strided pixel buffers, views and rectangle geometry

A shallow embedding of `src/CVLImage/cvl_image.h` and
`src/CVLImage/cvl_image_utils.h`, followed by theorems about it.

Conventions of the embedding (LP64 target):

* `int` is a 32-bit two's-complement integer.  Values are carried in `Int`
  and every `int` operation of the source is followed by `wrapInt`.
* `size_t` and `unsigned long` (`CVLImageBytesCount`, `CVLImagePixelCount`)
  are 64-bit.  Values are carried in `Nat` and every operation of the source
  is followed by `wrapSize` (reduction modulo `2^64`).
* A pointer is a byte address in `Nat`; `0` is `NULL`.  Pointer arithmetic
  wraps like `size_t` arithmetic.
* `assert(...)` failing is the result `none`.
* The allocator is an oracle: `Heap.supply` lists the results the next calls
  of `malloc` will return, and every call of `malloc` and `free` is logged in
  `Heap.events`.
-/

namespace CVLImage

/-! ## Machine arithmetic -/

/-- Reduction of a mathematical integer to the 32-bit `int` that represents it. -/
def wrapInt (z : Int) : Int := (z + 2147483648) % 4294967296 - 2147483648

/-- Reduction of a natural number to the 64-bit `size_t` that represents it. -/
def wrapSize (n : Nat) : Nat := n % 18446744073709551616

/-- Product of two `size_t` / `unsigned long` values, as C computes it. -/
def mulSize (a b : Nat) : Nat := wrapSize (a * b)

/-- Pointer plus byte offset. -/
def ptrAdd (p off : Nat) : Nat := wrapSize (p + off)

/-- Conversion of an `int` to `size_t` / `unsigned long`. -/
def sizeOfInt (z : Int) : Nat := (z % 18446744073709551616).toNat

/-- Conversion of an `unsigned long` to `int`, the cast `(int)n`. -/
def intOfSize (n : Nat) : Int := wrapInt (n : Int)

/-! ## Data model (`cvl_image.h`) -/

/-- Integer based point. -/
structure CVLPoint where
  x : Int
  y : Int
deriving DecidableEq, Repr

/-- Integer based rectangle. -/
structure CVLRect where
  x : Int
  y : Int
  width : Int
  height : Int
deriving DecidableEq, Repr

/-- CVL image buffer structure: address of the top left pixel, height and
width in pixels, number of bytes in a pixel row. -/
structure CVLImageBuffer where
  data : Nat
  height : Nat
  width : Nat
  rowBytes : Nat
deriving DecidableEq, Repr

/-- Byte contents of the address space. -/
abbrev Memory := Nat → Nat

/-- One call into the allocator. -/
inductive AllocEvent where
  | malloc (size : Nat) (result : Nat)
  | free (ptr : Nat)
deriving DecidableEq, Repr

/-- Memory together with the allocator: the bytes, the log of allocator calls
made so far (oldest first) and the results of the coming `malloc` calls
(`0` for a failed allocation; an exhausted supply fails too). -/
structure Heap where
  bytes : Memory
  events : List AllocEvent
  supply : List Nat

/-- The call `malloc(size)`. -/
def malloc (hp : Heap) (size : Nat) : Nat × Heap :=
  match hp.supply with
  | [] => (0, { hp with events := hp.events ++ [AllocEvent.malloc size 0] })
  | p :: rest =>
    (p, { hp with events := hp.events ++ [AllocEvent.malloc size p], supply := rest })

/-- The call `free(p)`. -/
def free (hp : Heap) (p : Nat) : Heap :=
  { hp with events := hp.events ++ [AllocEvent.free p] }

/-- The call `memcpy(dst, src, n)`: the `n` bytes from `dst` on receive the
bytes that were at `src` on before the call.  (C leaves the call undefined
when the two ranges overlap.) -/
def memcpy (m : Memory) (dst src n : Nat) : Memory :=
  fun a => if dst ≤ a ∧ a < dst + n then m (src + (a - dst)) else m a

/-- The call `memset(dst, c, n)`. -/
def memset (m : Memory) (dst c n : Nat) : Memory :=
  fun a => if dst ≤ a ∧ a < dst + n then c else m a

/-- Address of line `y` of an image: `CVL_GET_LINE(TYPE, IMAGE, Y)`. -/
def CVL_GET_LINE (image : CVLImageBuffer) (y : Nat) : Nat :=
  ptrAdd image.data (mulSize y image.rowBytes)

/-- Address of pixel `(x, y)` of an image whose pixel type has size
`pixel_size`: the lvalue `CVL_GET_PIXEL(TYPE, IMAGE, Y, X)`. -/
def CVL_GET_PIXEL (pixel_size : Nat) (image : CVLImageBuffer) (y x : Nat) : Nat :=
  ptrAdd (CVL_GET_LINE image y) (mulSize x pixel_size)

/-! ## Geometry (`cvl_image_utils.h`) -/

def cvl_point_make (x y : Int) : CVLPoint := { x := x, y := y }

def cvl_point_make_zero : CVLPoint := cvl_point_make 0 0

def cvl_point_invert (point : CVLPoint) : CVLPoint :=
  cvl_point_make (wrapInt (-point.x)) (wrapInt (-point.y))

def cvl_rect_make (x y width height : Int) : CVLRect :=
  { x := x, y := y, width := width, height := height }

def cvl_rect_make_empty : CVLRect := cvl_rect_make 0 0 0 0

def cvl_rect_make_around_center (center : CVLPoint) (rad_x rad_y : Int) : CVLRect :=
  { x := wrapInt (center.x - rad_x)
    y := wrapInt (center.y - rad_y)
    width := wrapInt (1 + wrapInt (rad_x * 2))
    height := wrapInt (1 + wrapInt (rad_y * 2)) }

/-- The argument is `none` for a null pointer, else the four values read. -/
def cvl_rect_make_from_values (values : Option (Int × Int × Int × Int)) : CVLRect :=
  match values with
  | some (v0, v1, v2, v3) => { x := v0, y := v1, width := v2, height := v3 }
  | none => cvl_rect_make_empty

def cvl_rect_move (rect : CVLRect) (offset : CVLPoint) : CVLRect :=
  cvl_rect_make (wrapInt (rect.x + offset.x)) (wrapInt (rect.y + offset.y))
    rect.width rect.height

def cvl_rect_center (rect : CVLRect) : CVLPoint :=
  cvl_point_make (wrapInt (rect.x + Int.tdiv rect.width 2))
    (wrapInt (rect.y + Int.tdiv rect.height 2))

def cvl_rect_origin (rect : CVLRect) : CVLPoint :=
  cvl_point_make rect.x rect.y

def cvl_rect_is_empty (rect : CVLRect) : Bool :=
  rect.width == 0 || rect.height == 0

/-- The sums are `int` sums and the buffer's `unsigned long` width and height
are compared after the casts `(int)image->width`, `(int)image->height`. -/
def cvl_rect_is_good_roi (rect : CVLRect) (image : CVLImageBuffer) : Bool :=
  if rect.width ≤ 0 ∨ rect.height ≤ 0 then false
  else if rect.x < 0 ∨ rect.y < 0 then false
  else if wrapInt (rect.x + rect.width) > intOfSize image.width
      ∨ wrapInt (rect.y + rect.height) > intOfSize image.height then false
  else true

/-- Bounding rectangle around `a` and `b`; all arithmetic is `int` arithmetic. -/
def cvl_rect_union (a b : CVLRect) : CVLRect :=
  let r_x1 := if a.x < b.x then a.x else b.x
  let r_y1 := if a.y < b.y then a.y else b.y
  let r_x2 := if wrapInt (a.x + a.width) > wrapInt (b.x + b.width)
    then wrapInt (a.x + a.width) else wrapInt (b.x + b.width)
  let r_y2 := if wrapInt (a.y + a.height) > wrapInt (b.y + b.height)
    then wrapInt (a.y + a.height) else wrapInt (b.y + b.height)
  { x := r_x1, y := r_y1, width := wrapInt (r_x2 - r_x1), height := wrapInt (r_y2 - r_y1) }

/-! ## Buffers (`cvl_image_utils.h`) -/

/-- The result is the new descriptor and the heap after the one `malloc` call;
`none` when the assertion on the arguments fails. -/
def cvl_image_create (hp : Heap) (height width pixel_size : Nat) :
    Option (CVLImageBuffer × Heap) :=
  if height > 0 ∧ width > 0 ∧ pixel_size > 0 then
    let r := malloc hp (mulSize (mulSize width height) pixel_size)
    some ({ data := r.1, height := height, width := width,
            rowBytes := mulSize width pixel_size }, r.2)
  else none

def cvl_image_make_empty : CVLImageBuffer :=
  { data := 0, height := 0, width := 0, rowBytes := 0 }

/-- The result is the descriptor and the heap after the call. -/
def cvl_image_release (hp : Heap) (image : CVLImageBuffer) : CVLImageBuffer × Heap :=
  if image.data = 0 then (image, hp)
  else ({ data := 0, height := 0, width := 0, rowBytes := 0 }, free hp image.data)

def cvl_image_is_continuous (image : CVLImageBuffer) (pixel_size : Nat) : Bool :=
  mulSize image.width pixel_size == image.rowBytes

/-- The descriptor pointer is `none` when null. -/
def cvl_image_is_good (image : Option CVLImageBuffer) (pixel_size : Nat) : Bool :=
  match image with
  | none => false
  | some im =>
    im.data != 0 && im.height != 0 && im.width != 0
      && decide (im.rowBytes ≥ mulSize im.width pixel_size)

/-- The view of `image` at `roi`; `none` when one of the two assertions fails. -/
def cvl_image_subimage (image : CVLImageBuffer) (roi : CVLRect) (pixel_size : Nat) :
    Option CVLImageBuffer :=
  if cvl_image_is_good (some image) pixel_size = true then
    if cvl_rect_is_good_roi roi image = true then
      some { data := ptrAdd (ptrAdd image.data (mulSize image.rowBytes (sizeOfInt roi.y)))
                       (mulSize pixel_size (sizeOfInt roi.x))
             height := sizeOfInt roi.height
             width := sizeOfInt roi.width
             rowBytes := image.rowBytes }
    else none
  else none

/-- The result is the descriptor `*image` and the heap after the call; `none`
when the assertion on the arguments fails. -/
def cvl_image_reuse (hp : Heap) (image : CVLImageBuffer) (height width pixel_size : Nat) :
    Option (CVLImageBuffer × Heap) :=
  if height > 0 ∧ width > 0 ∧ pixel_size > 0 then
    if cvl_image_is_good (some image) pixel_size = true ∧ image.height = height
        ∧ image.width = width ∧ image.rowBytes = mulSize width pixel_size then
      some (image, hp)
    else
      cvl_image_create (cvl_image_release hp image).2 height width pixel_size
  else none

/-- Memory after the iterations `y = 0, ..., n - 1` of the row loop of
`cvl_image_copy`. -/
def cvl_image_copy_lines (source_image dest_image : CVLImageBuffer) (pixel_size : Nat) :
    Nat → Memory → Memory
  | 0, m => m
  | y + 1, m =>
    memcpy (cvl_image_copy_lines source_image dest_image pixel_size y m)
      (CVL_GET_LINE dest_image y) (CVL_GET_LINE source_image y)
      (mulSize source_image.width pixel_size)

/-- The result is the memory and the destination descriptor after the call;
`none` when one of the three assertions fails. -/
def cvl_image_copy (m : Memory) (source_image dest_image : CVLImageBuffer) (pixel_size : Nat) :
    Option (Memory × CVLImageBuffer) :=
  if cvl_image_is_good (some source_image) pixel_size = true then
    if cvl_image_is_good (some dest_image) pixel_size = true then
      if source_image.width = dest_image.width ∧ source_image.height = dest_image.height then
        if cvl_image_is_continuous source_image pixel_size = true
            ∧ cvl_image_is_continuous dest_image pixel_size = true then
          some (memcpy m dest_image.data source_image.data
                  (mulSize source_image.rowBytes source_image.height), dest_image)
        else
          some (cvl_image_copy_lines source_image dest_image pixel_size source_image.height m,
                dest_image)
      else none
    else none
  else none

/-- Memory after the iterations `y = 0, ..., n - 1` of the row loop of
`cvl_image_clear`. -/
def cvl_image_clear_lines (image : CVLImageBuffer) (pixel_size : Nat) :
    Nat → Memory → Memory
  | 0, m => m
  | y + 1, m =>
    memset (cvl_image_clear_lines image pixel_size y m)
      (CVL_GET_LINE image y) 0 (mulSize image.width pixel_size)

/-- The result is the memory after the call. -/
def cvl_image_clear (m : Memory) (image : CVLImageBuffer) (pixel_size : Nat) : Memory :=
  if cvl_image_is_continuous image pixel_size = true then
    memset m image.data 0 (mulSize image.height image.rowBytes)
  else
    cvl_image_clear_lines image pixel_size image.height m

/-! ## Vocabulary of the specification -/

/-- The value is representable as a 32-bit `int`. -/
def isInt (z : Int) : Prop := -2147483648 ≤ z ∧ z ≤ 2147483647

/-- The pixel rows of `b`, for cells of `s` bytes, lie in the 64-bit address
space: the last pixel byte, `data + (height - 1) * rowBytes + width * s - 1`,
has an address. -/
def CVLImageBuffer.inAddressSpace (b : CVLImageBuffer) (s : Nat) : Prop :=
  b.data + (b.height - 1) * b.rowBytes + b.width * s ≤ 18446744073709551616

/-- Address `a` holds a pixel byte of `b`: byte `k` of the `width * s` pixel
bytes of some row `y`. -/
def CVLImageBuffer.isPixelByte (b : CVLImageBuffer) (s : Nat) (a : Nat) : Prop :=
  ∃ y k, y < b.height ∧ k < b.width * s ∧ a = b.data + y * b.rowBytes + k

/-- Rectangle `r` contains rectangle `q`. -/
def CVLRect.contains (r q : CVLRect) : Prop :=
  r.x ≤ q.x ∧ r.y ≤ q.y ∧ q.x + q.width ≤ r.x + r.width ∧ q.y + q.height ≤ r.y + r.height

/-- No `int` addition about the union of `a` and `b` overflows: neither the
four sums `x + width`, `y + height` the code forms, nor the same two sums of
the result. -/
def unionAdditionsFit (a b : CVLRect) : Prop :=
  isInt (a.x + a.width) ∧ isInt (b.x + b.width) ∧
  isInt (a.y + a.height) ∧ isInt (b.y + b.height) ∧
  isInt ((cvl_rect_union a b).x + (cvl_rect_union a b).width) ∧
  isInt ((cvl_rect_union a b).y + (cvl_rect_union a b).height)

/-- The rect `(0, 0, w, h)` for the width `w` and height `h` of buffer `b`,
passed to the `int` parameters of `cvl_rect_make`. -/
def fullRect (b : CVLImageBuffer) : CVLRect :=
  cvl_rect_make 0 0 (intOfSize b.width) (intOfSize b.height)

/-- The rect `(0, 0, w + 1, h)` for the width `w` and height `h` of buffer `b`. -/
def widerRect (b : CVLImageBuffer) : CVLRect :=
  cvl_rect_make 0 0 (wrapInt (intOfSize b.width + 1)) (intOfSize b.height)

/-- No `int` operation of `cvl_rect_make_around_center` overflows, for a point
`c` with `int` coordinates. -/
def aroundCenterFits (c : CVLPoint) (rad_x rad_y : Int) : Prop :=
  isInt c.x ∧ isInt c.y ∧ isInt (c.x - rad_x) ∧ isInt (c.y - rad_y) ∧
  isInt (1 + rad_x * 2) ∧ isInt (1 + rad_y * 2)

/-- Half of `z` rounded toward zero, written with division of non-negative
numbers only (where every rounding convention agrees). -/
def truncHalf (z : Int) : Int := if 0 ≤ z then z / 2 else -((-z) / 2)

/-! ## Memory accesses of the bulk operations -/

/-- The `memset` calls `cvl_image_clear` makes, in order: destination and
length of each. -/
def cvl_image_clear_calls (image : CVLImageBuffer) (pixel_size : Nat) : List (Nat × Nat) :=
  if cvl_image_is_continuous image pixel_size = true then
    [(image.data, mulSize image.height image.rowBytes)]
  else
    (List.range image.height).map
      (fun y => (CVL_GET_LINE image y, mulSize image.width pixel_size))

/-- The `memcpy` calls `cvl_image_copy` makes, in order: destination, source
and length of each; `none` when one of the three assertions fails. -/
def cvl_image_copy_calls (source_image dest_image : CVLImageBuffer) (pixel_size : Nat) :
    Option (List (Nat × Nat × Nat)) :=
  if cvl_image_is_good (some source_image) pixel_size = true then
    if cvl_image_is_good (some dest_image) pixel_size = true then
      if source_image.width = dest_image.width ∧ source_image.height = dest_image.height then
        if cvl_image_is_continuous source_image pixel_size = true
            ∧ cvl_image_is_continuous dest_image pixel_size = true then
          some [(dest_image.data, source_image.data,
                  mulSize source_image.rowBytes source_image.height)]
        else
          some ((List.range source_image.height).map
            (fun y => (CVL_GET_LINE dest_image y, CVL_GET_LINE source_image y,
              mulSize source_image.width pixel_size)))
      else none
    else none
  else none

/-- Memory after a sequence of `memset` calls writing zero. -/
def runMemsets (calls : List (Nat × Nat)) (m : Memory) : Memory :=
  calls.foldl (fun mem c => memset mem c.1 0 c.2) m

/-- Memory after a sequence of `memcpy` calls. -/
def runMemcpys (calls : List (Nat × Nat × Nat)) (m : Memory) : Memory :=
  calls.foldl (fun mem c => memcpy mem c.1 c.2.1 c.2.2) m

/-- Size of the footprint of a buffer: from its data pointer to the end of
the pixel bytes of its last row. -/
def CVLImageBuffer.footprint (b : CVLImageBuffer) (s : Nat) : Nat :=
  (b.height - 1) * b.rowBytes + b.width * s

/-! ## Lemmas on machine arithmetic -/

theorem wrapSize_eq_iff (a b : Nat) :
    wrapSize a = wrapSize b ↔ ((a : ZMod 18446744073709551616) = (b : ZMod 18446744073709551616)) := by
  unfold wrapSize
  exact (ZMod.natCast_eq_natCast_iff' a b 18446744073709551616).symm

theorem cast_wrapSize (a : Nat) :
    ((wrapSize a : Nat) : ZMod 18446744073709551616) = (a : ZMod 18446744073709551616) := by
  unfold wrapSize
  exact ZMod.natCast_mod a 18446744073709551616

theorem sizeOfInt_of_nonneg (z : Int) (hz : 0 ≤ z) : sizeOfInt z = wrapSize z.toNat := by
  unfold sizeOfInt wrapSize
  omega

/-- The address `CVL_GET_PIXEL` computes is `data + y * rowBytes + x * pixel_size`
as a 64-bit value. -/
theorem CVL_GET_PIXEL_eq (s : Nat) (b : CVLImageBuffer) (y x : Nat) :
    CVL_GET_PIXEL s b y x = wrapSize (b.data + y * b.rowBytes + x * s) := by
  unfold CVL_GET_PIXEL CVL_GET_LINE ptrAdd mulSize
  rw [wrapSize_eq_iff]
  simp only [cast_wrapSize, Nat.cast_add, Nat.cast_mul]

theorem good_facts (b : CVLImageBuffer) (s : Nat)
    (hgood : cvl_image_is_good (some b) s = true) :
    b.data ≠ 0 ∧ b.height ≠ 0 ∧ b.width ≠ 0 ∧ mulSize b.width s ≤ b.rowBytes := by
  simpa [cvl_image_is_good, and_assoc] using hgood

theorem mulSize_of_lt (a b : Nat) (h : a * b < 18446744073709551616) : mulSize a b = a * b := by
  unfold mulSize wrapSize
  exact Nat.mod_eq_of_lt h

theorem good_roi_nonneg (roi : CVLRect) (b : CVLImageBuffer)
    (hroi : cvl_rect_is_good_roi roi b = true) :
    0 < roi.width ∧ 0 < roi.height ∧ 0 ≤ roi.x ∧ 0 ≤ roi.y := by
  unfold cvl_rect_is_good_roi at hroi
  split at hroi
  · simp at hroi
  · split at hroi
    · simp at hroi
    · omega

/-! ## The view operation -/

/-- Without wrap-around: when the parent's pixel rows lie in the address space
and the region of interest lies inside the parent, the data pointer of the
view is `data + y * rowBytes + x * s` exactly. -/
theorem subimage_data_exact (b : CVLImageBuffer) (s : Nat) (roi : CVLRect)
    (hgood : cvl_image_is_good (some b) s = true)
    (hroi : cvl_rect_is_good_roi roi b = true)
    (hs : 0 < s) (hmem : b.inAddressSpace s)
    (hin : roi.x + roi.width ≤ (b.width : Int)) (hin2 : roi.y + roi.height ≤ (b.height : Int)) :
    ptrAdd (ptrAdd b.data (mulSize b.rowBytes (sizeOfInt roi.y))) (mulSize s (sizeOfInt roi.x))
      = b.data + roi.y.toNat * b.rowBytes + roi.x.toNat * s := by
  obtain ⟨hw, hh, hx, hy⟩ := good_roi_nonneg roi b hroi
  obtain ⟨hd, _, _, hrow⟩ := good_facts b s hgood
  unfold CVLImageBuffer.inAddressSpace at hmem
  have hws : mulSize b.width s = b.width * s := mulSize_of_lt _ _ (by omega)
  have hyH : roi.y.toNat ≤ b.height - 1 := by omega
  have hxW : roi.x.toNat + 1 ≤ b.width := by omega
  have h1 : roi.y.toNat * b.rowBytes ≤ (b.height - 1) * b.rowBytes :=
    Nat.mul_le_mul_right _ hyH
  have h2 : (roi.x.toNat + 1) * s ≤ b.width * s := Nat.mul_le_mul_right _ hxW
  rw [Nat.succ_mul] at h2
  have h3 : roi.x.toNat ≤ roi.x.toNat * s := Nat.le_mul_of_pos_right _ hs
  have h4 : roi.y.toNat ≤ roi.y.toNat * b.rowBytes := Nat.le_mul_of_pos_right _ (by omega)
  have ey : sizeOfInt roi.y = roi.y.toNat := by
    rw [sizeOfInt_of_nonneg _ hy]; unfold wrapSize; omega
  have ex : sizeOfInt roi.x = roi.x.toNat := by
    rw [sizeOfInt_of_nonneg _ hx]; unfold wrapSize; omega
  rw [ey, ex, mulSize_of_lt _ _ (by rw [Nat.mul_comm]; omega),
    mulSize_of_lt _ _ (by rw [Nat.mul_comm]; omega)]
  rw [Nat.mul_comm b.rowBytes, Nat.mul_comm s]
  unfold ptrAdd wrapSize
  rw [Nat.mod_eq_of_lt (by omega), Nat.mod_eq_of_lt (by omega)]

/-- C1: for a well-formed buffer `b` and a good region of interest
`roi = (x, y, w, h)`, `cvl_image_subimage` returns a view `v` whose cell
`(row j, column i)`, for `0 ≤ i < w` and `0 ≤ j < h`, has the byte address of the
parent's cell `(row y + j, column x + i)`: the addresses `CVL_GET_PIXEL`
computes are `data + row * rowBytes + column * s` (as 64-bit values) on both
sides and they are equal, so every byte of the cell read through the view is
the byte of the parent cell.  When nothing wraps around (positive cell size,
parent's pixel rows in the address space, region of interest inside the
parent) the two address expressions are equal as natural numbers. -/
theorem subimage_addresses_parent_cells (b : CVLImageBuffer) (s : Nat) (roi : CVLRect)
    (hgood : cvl_image_is_good (some b) s = true)
    (hroi : cvl_rect_is_good_roi roi b = true) :
    ∃ v, cvl_image_subimage b roi s = some v ∧
      ∀ i j : Nat, (i : Int) < roi.width → (j : Int) < roi.height →
        CVL_GET_PIXEL s v j i = wrapSize (v.data + j * v.rowBytes + i * s) ∧
        CVL_GET_PIXEL s b (roi.y.toNat + j) (roi.x.toNat + i)
          = wrapSize (b.data + (roi.y.toNat + j) * b.rowBytes + (roi.x.toNat + i) * s) ∧
        CVL_GET_PIXEL s v j i = CVL_GET_PIXEL s b (roi.y.toNat + j) (roi.x.toNat + i) ∧
        (∀ (m : Memory) (k : Nat),
          m (CVL_GET_PIXEL s v j i + k)
            = m (CVL_GET_PIXEL s b (roi.y.toNat + j) (roi.x.toNat + i) + k)) ∧
        (0 < s → b.inAddressSpace s →
          roi.x + roi.width ≤ (b.width : Int) → roi.y + roi.height ≤ (b.height : Int) →
          v.data + j * v.rowBytes + i * s
            = b.data + (roi.y.toNat + j) * b.rowBytes + (roi.x.toNat + i) * s) := by
  obtain ⟨_, _, hx, hy⟩ := good_roi_nonneg roi b hroi
  refine ⟨_, by simp only [cvl_image_subimage, hgood, hroi, if_true]; rfl, ?_⟩
  intro i j _ _
  have key : CVL_GET_PIXEL s
      { data := ptrAdd (ptrAdd b.data (mulSize b.rowBytes (sizeOfInt roi.y)))
                  (mulSize s (sizeOfInt roi.x))
        height := sizeOfInt roi.height
        width := sizeOfInt roi.width
        rowBytes := b.rowBytes } j i
      = CVL_GET_PIXEL s b (roi.y.toNat + j) (roi.x.toNat + i) := by
    rw [CVL_GET_PIXEL_eq, CVL_GET_PIXEL_eq, sizeOfInt_of_nonneg _ hx, sizeOfInt_of_nonneg _ hy]
    simp only [ptrAdd, mulSize]
    rw [wrapSize_eq_iff]
    simp only [cast_wrapSize, Nat.cast_add, Nat.cast_mul]
    ring
  refine ⟨CVL_GET_PIXEL_eq _ _ _ _, CVL_GET_PIXEL_eq _ _ _ _, key, ?_, ?_⟩
  · intro m k
    rw [key]
  · intro hs hmem hin hin2
    show ptrAdd (ptrAdd b.data (mulSize b.rowBytes (sizeOfInt roi.y)))
        (mulSize s (sizeOfInt roi.x)) + j * b.rowBytes + i * s = _
    rw [subimage_data_exact b s roi hgood hroi hs hmem hin hin2]
    ring

theorem subimage_addresses_parent_cells_witness :
    cvl_image_is_good (some ⟨1000, 10, 10, 40⟩) 4 = true ∧
    cvl_rect_is_good_roi ⟨3, 3, 4, 4⟩ ⟨1000, 10, 10, 40⟩ = true ∧
    ∃ v, cvl_image_subimage ⟨1000, 10, 10, 40⟩ ⟨3, 3, 4, 4⟩ 4 = some v ∧
      CVL_GET_PIXEL 4 v 2 2 = CVL_GET_PIXEL 4 ⟨1000, 10, 10, 40⟩ 5 5 := by
  refine ⟨by decide, by decide, ?_⟩
  obtain ⟨v, hv, hcell⟩ :=
    subimage_addresses_parent_cells ⟨1000, 10, 10, 40⟩ 4 ⟨3, 3, 4, 4⟩ (by decide) (by decide)
  exact ⟨v, hv, (hcell 2 2 (by decide) (by decide)).2.2.1⟩

/-! ## Ownership operations -/

/-- C2: on a well-formed buffer whose height, width and rowBytes already are
`h`, `w` and `w * s` (the `size_t` product the code compares with, which is the
exact product whenever that fits a rowBytes field), `cvl_image_reuse` returns
with the descriptor and the whole heap as they were: same data pointer, height,
width and rowBytes, same memory bytes, no `free` and no `malloc` logged, no
allocator result consumed.  A second call with the same arguments therefore
again leaves everything as it was, and the data pointer after the second call
is the one after the first. -/
theorem reuse_matching_is_untouched (hp : Heap) (b : CVLImageBuffer) (h w s : Nat)
    (hh : 0 < h) (hw : 0 < w) (hs : 0 < s)
    (hgood : cvl_image_is_good (some b) s = true)
    (hbh : b.height = h) (hbw : b.width = w) (hrow : b.rowBytes = mulSize w s) :
    ∃ b1 hp1, cvl_image_reuse hp b h w s = some (b1, hp1) ∧
      b1 = b ∧ hp1.bytes = hp.bytes ∧ hp1.events = hp.events ∧ hp1.supply = hp.supply ∧
      ∃ b2 hp2, cvl_image_reuse hp1 b1 h w s = some (b2, hp2) ∧
        b2.data = b1.data ∧ b2 = b ∧ hp2.bytes = hp.bytes ∧ hp2.events = hp.events ∧
        hp2.supply = hp.supply := by
  have hre : cvl_image_reuse hp b h w s = some (b, hp) := by
    unfold cvl_image_reuse
    rw [if_pos ⟨hh, hw, hs⟩, if_pos ⟨hgood, hbh, hbw, hrow⟩]
  exact ⟨b, hp, hre, rfl, rfl, rfl, rfl, b, hp, hre, rfl, rfl, rfl, rfl, rfl⟩

theorem reuse_matching_is_untouched_witness :
    cvl_image_is_good (some ⟨4096, 10, 10, 40⟩) 4 = true ∧
    ∃ b1 hp1, cvl_image_reuse ⟨fun _ => 7, [], [8192]⟩ ⟨4096, 10, 10, 40⟩ 10 10 4
        = some (b1, hp1) ∧
      b1.data = 4096 ∧ hp1.events = [] ∧ hp1.supply = [8192] := by
  refine ⟨by decide, ?_⟩
  obtain ⟨b1, hp1, h1, hb, _, he, hsup, _⟩ :=
    reuse_matching_is_untouched ⟨fun _ => 7, [], [8192]⟩ ⟨4096, 10, 10, 40⟩ 10 10 4
      (by decide) (by decide) (by decide) (by decide) rfl rfl (by decide)
  exact ⟨b1, hp1, h1, by rw [hb], he, hsup⟩

/-- C3: when the buffer's height or width differs from the requested one,
`cvl_image_reuse` (for `h, w, s > 0`) releases the old allocation if the data
pointer was non-null (one `free` of it is logged, none otherwise), then makes
exactly one `malloc` call, for `w * h * s` bytes, and leaves the descriptor that
`cvl_image_create h w s` returns on the heap after the release: data the result
of that `malloc`, height `h`, width `w`, rowBytes `w * s`.  That descriptor is
continuous for `s`, and well-formed for `s` when the allocation succeeded.  The
products are the `size_t` products of the code; they are the exact products
whenever `w * h * s` fits 64 bits. -/
theorem reuse_mismatch_reallocates (hp : Heap) (b : CVLImageBuffer) (h w s : Nat)
    (hh : 0 < h) (hw : 0 < w) (hs : 0 < s)
    (hne : b.height ≠ h ∨ b.width ≠ w) :
    ∃ b1 hp1, cvl_image_reuse hp b h w s = some (b1, hp1) ∧
      cvl_image_create (cvl_image_release hp b).2 h w s = some (b1, hp1) ∧
      hp1.events = hp.events ++ (if b.data = 0 then [] else [AllocEvent.free b.data])
        ++ [AllocEvent.malloc (mulSize (mulSize w h) s) b1.data] ∧
      b1.data = hp.supply.headD 0 ∧ hp1.supply = hp.supply.tail ∧
      b1.height = h ∧ b1.width = w ∧ b1.rowBytes = mulSize w s ∧
      cvl_image_is_continuous b1 s = true ∧
      (b1.data ≠ 0 → cvl_image_is_good (some b1) s = true) ∧
      (w * h * s < 18446744073709551616 →
        mulSize (mulSize w h) s = w * h * s ∧ b1.rowBytes = w * s) := by
  have hcond : ¬ (cvl_image_is_good (some b) s = true ∧ b.height = h
      ∧ b.width = w ∧ b.rowBytes = mulSize w s) := by
    rintro ⟨_, h1, h2, _⟩
    rcases hne with hne | hne
    · exact hne h1
    · exact hne h2
  have hre : cvl_image_reuse hp b h w s
      = cvl_image_create (cvl_image_release hp b).2 h w s := by
    unfold cvl_image_reuse
    rw [if_pos ⟨hh, hw, hs⟩, if_neg hcond]
  have hexact : w * h * s < 18446744073709551616 →
      mulSize (mulSize w h) s = w * h * s ∧ mulSize w s = w * s := by
    intro hfit
    have h1 : w * h ≤ w * h * s := Nat.le_mul_of_pos_right _ hs
    have h2 : w * s ≤ w * h * s := by
      calc w * s = w * 1 * s := by rw [Nat.mul_one]
        _ ≤ w * h * s := Nat.mul_le_mul_right s (Nat.mul_le_mul_left w hh)
    rw [mulSize_of_lt w h (by omega), mulSize_of_lt (w * h) s hfit, mulSize_of_lt w s (by omega)]
    exact ⟨rfl, rfl⟩
  rw [hre]
  unfold cvl_image_create
  rw [if_pos ⟨hh, hw, hs⟩]
  refine ⟨_, _, rfl, rfl, ?_, ?_, ?_, rfl, rfl, rfl, ?_, ?_, hexact⟩
  · unfold cvl_image_release malloc free
    by_cases hd : b.data = 0 <;> cases hsup : hp.supply <;> simp [hd, hsup]
  · unfold cvl_image_release malloc free
    by_cases hd : b.data = 0 <;> cases hsup : hp.supply <;> simp [hd, hsup]
  · unfold cvl_image_release malloc free
    by_cases hd : b.data = 0 <;> cases hsup : hp.supply <;> simp [hd, hsup]
  · simp [cvl_image_is_continuous]
  · intro hdata
    simp only [cvl_image_is_good, Bool.and_eq_true, bne_iff_ne, ne_eq, decide_eq_true_eq]
    exact ⟨⟨⟨hdata, by omega⟩, by omega⟩, le_refl _⟩

theorem reuse_mismatch_reallocates_witness :
    ((⟨4096, 5, 5, 20⟩ : CVLImageBuffer).height ≠ 10 ∨ (⟨4096, 5, 5, 20⟩ : CVLImageBuffer).width ≠ 10) ∧
    ∃ b1 hp1, cvl_image_reuse ⟨fun _ => 7, [], [8192]⟩ ⟨4096, 5, 5, 20⟩ 10 10 4
        = some (b1, hp1) ∧
      hp1.events = [AllocEvent.free 4096, AllocEvent.malloc 400 8192] ∧
      b1.data = 8192 ∧ b1.height = 10 ∧ b1.width = 10 ∧ b1.rowBytes = 40 := by
  refine ⟨by decide, ?_⟩
  obtain ⟨b1, hp1, h1, _, hev, hdata, _, hbh, hbw, hrow, _⟩ :=
    reuse_mismatch_reallocates ⟨fun _ => 7, [], [8192]⟩ ⟨4096, 5, 5, 20⟩ 10 10 4
      (by decide) (by decide) (by decide) (by decide)
  refine ⟨b1, hp1, h1, ?_, hdata, hbh, hbw, ?_⟩
  · rw [hev, hdata]
    decide
  · rw [hrow]
    decide

/-- C4: a well-formed buffer of the requested height and width whose rowBytes
exceeds the minimal stride `w * s` is not kept by `cvl_image_reuse`: its
allocation is freed, one fresh `malloc` of `w * h * s` bytes follows, and the
descriptor is replaced by the one `cvl_image_create h w s` returns, of the same
height and width, whose rowBytes is the minimal stride `w * s` (and so differs
from the old rowBytes).
The stride compared with is the `size_t` product of the code, which is the
exact product when that fits 64 bits, as it does when it is below a rowBytes
field. -/
theorem reuse_padded_reallocates (hp : Heap) (b : CVLImageBuffer) (h w s : Nat)
    (hh : 0 < h) (hw : 0 < w) (hs : 0 < s)
    (hgood : cvl_image_is_good (some b) s = true)
    (hbh : b.height = h) (hbw : b.width = w) (hpad : mulSize w s < b.rowBytes) :
    ∃ b1 hp1, cvl_image_reuse hp b h w s = some (b1, hp1) ∧
      cvl_image_create (cvl_image_release hp b).2 h w s = some (b1, hp1) ∧
      hp1.events = hp.events ++ [AllocEvent.free b.data,
        AllocEvent.malloc (mulSize (mulSize w h) s) b1.data] ∧
      b1.data = hp.supply.headD 0 ∧
      b1.height = b.height ∧ b1.width = b.width ∧ b1.rowBytes = mulSize w s ∧
      b1.rowBytes ≠ b.rowBytes ∧
      (w * s < 18446744073709551616 → b1.rowBytes = w * s) := by
  have hd : b.data ≠ 0 := (good_facts b s hgood).1
  have hcond : ¬ (cvl_image_is_good (some b) s = true ∧ b.height = h
      ∧ b.width = w ∧ b.rowBytes = mulSize w s) := by
    rintro ⟨_, _, _, h3⟩
    omega
  have hre : cvl_image_reuse hp b h w s
      = cvl_image_create (cvl_image_release hp b).2 h w s := by
    unfold cvl_image_reuse
    rw [if_pos ⟨hh, hw, hs⟩, if_neg hcond]
  rw [hre]
  unfold cvl_image_create
  rw [if_pos ⟨hh, hw, hs⟩]
  refine ⟨_, _, rfl, rfl, ?_, ?_, hbh.symm, hbw.symm, rfl, ?_, ?_⟩
  · unfold cvl_image_release malloc free
    cases hsup : hp.supply <;> simp [hd, hsup]
  · unfold cvl_image_release malloc free
    cases hsup : hp.supply <;> simp [hd, hsup]
  · show mulSize w s ≠ b.rowBytes
    omega
  · intro hfit
    exact mulSize_of_lt w s hfit

theorem reuse_padded_reallocates_witness :
    cvl_image_is_good (some ⟨4096, 10, 10, 64⟩) 4 = true ∧ mulSize 10 4 < 64 ∧
    ∃ b1 hp1, cvl_image_reuse ⟨fun _ => 7, [], [8192]⟩ ⟨4096, 10, 10, 64⟩ 10 10 4
        = some (b1, hp1) ∧
      hp1.events = [AllocEvent.free 4096, AllocEvent.malloc 400 8192] ∧
      b1.data = 8192 ∧ b1.rowBytes = 40 := by
  refine ⟨by decide, by decide, ?_⟩
  obtain ⟨b1, hp1, h1, _, hev, hdata, _, _, hrow, _⟩ :=
    reuse_padded_reallocates ⟨fun _ => 7, [], [8192]⟩ ⟨4096, 10, 10, 64⟩ 10 10 4
      (by decide) (by decide) (by decide) (by decide) rfl rfl (by decide)
  refine ⟨b1, hp1, h1, ?_, hdata, ?_⟩
  · rw [hev, hdata]
    decide
  · rw [hrow]
    decide

/-! ## Bulk data operations -/

theorem memset_apply (m : Memory) (d c n a : Nat) :
    memset m d c n a = if d ≤ a ∧ a < d + n then c else m a := rfl

theorem memcpy_apply (m : Memory) (d p n a : Nat) :
    memcpy m d p n a = if d ≤ a ∧ a < d + n then m (p + (a - d)) else m a := rfl

theorem memset_zero_len (m : Memory) (d c : Nat) : memset m d c 0 = m := by
  funext a
  rw [memset_apply, if_neg (by omega)]

theorem memcpy_zero_len (m : Memory) (d p : Nat) : memcpy m d p 0 = m := by
  funext a
  rw [memcpy_apply, if_neg (by omega)]

/-- In a well-formed buffer with at least one pixel byte per row that lies in
the address space, the machine arithmetic of the row addresses is exact. -/
theorem buffer_exact (b : CVLImageBuffer) (s : Nat)
    (hgood : cvl_image_is_good (some b) s = true) (hmem : b.inAddressSpace s) :
    mulSize b.width s = b.width * s ∧ b.width * s ≤ b.rowBytes ∧
    (0 < b.width * s → ∀ y, y < b.height →
      CVL_GET_LINE b y = b.data + y * b.rowBytes ∧
      b.data + y * b.rowBytes + b.width * s ≤ 18446744073709551616) := by
  obtain ⟨hd, hh, _, hrow⟩ := good_facts b s hgood
  unfold CVLImageBuffer.inAddressSpace at hmem
  have hws : mulSize b.width s = b.width * s := mulSize_of_lt _ _ (by omega)
  refine ⟨hws, by omega, ?_⟩
  intro hpos y hy
  have hle : y * b.rowBytes ≤ (b.height - 1) * b.rowBytes :=
    Nat.mul_le_mul_right _ (by omega)
  have hline : CVL_GET_LINE b y = b.data + y * b.rowBytes := by
    unfold CVL_GET_LINE ptrAdd
    rw [mulSize_of_lt _ _ (by omega)]
    unfold wrapSize
    exact Nat.mod_eq_of_lt (by omega)
  exact ⟨hline, by omega⟩

/-- Rows of a buffer do not run into each other: the pixel bytes of row `y`
end before row `y'` starts when `y < y'`. -/
theorem row_before (R y y' : Nat) (h : y < y') : y * R + R ≤ y' * R := by
  have := Nat.mul_le_mul_right R (Nat.succ_le_of_lt h)
  rw [Nat.succ_mul] at this
  exact this

theorem clear_lines_zero_len (b : CVLImageBuffer) (s : Nat) (m : Memory)
    (hz : mulSize b.width s = 0) (n : Nat) : cvl_image_clear_lines b s n m = m := by
  induction n with
  | zero => rfl
  | succ n ih =>
    show memset (cvl_image_clear_lines b s n m) _ 0 (mulSize b.width s) = m
    rw [hz, memset_zero_len, ih]

theorem clear_lines_written (b : CVLImageBuffer) (s : Nat) (m : Memory)
    (hw : mulSize b.width s = b.width * s)
    (hline : ∀ y, y < b.height → CVL_GET_LINE b y = b.data + y * b.rowBytes)
    (n : Nat) (hn : n ≤ b.height) (y k : Nat) (hy : y < n) (hk : k < b.width * s) :
    cvl_image_clear_lines b s n m (b.data + y * b.rowBytes + k) = 0 := by
  induction n with
  | zero => omega
  | succ n ih =>
    show memset (cvl_image_clear_lines b s n m) (CVL_GET_LINE b n) 0 (mulSize b.width s) _ = 0
    rw [memset_apply, hw, hline n (by omega)]
    split
    · rfl
    · rename_i hout
      have hyn : y < n := by
        by_contra hge
        have : y = n := by omega
        subst this
        omega
      exact ih (by omega) hyn

theorem clear_lines_frame (b : CVLImageBuffer) (s : Nat) (m : Memory)
    (hw : mulSize b.width s = b.width * s)
    (hline : ∀ y, y < b.height → CVL_GET_LINE b y = b.data + y * b.rowBytes)
    (n : Nat) (hn : n ≤ b.height) (a : Nat)
    (hout : ¬ b.isPixelByte s a) :
    cvl_image_clear_lines b s n m a = m a := by
  induction n with
  | zero => rfl
  | succ n ih =>
    show memset (cvl_image_clear_lines b s n m) (CVL_GET_LINE b n) 0 (mulSize b.width s) a = m a
    rw [memset_apply, hw, hline n (by omega)]
    split
    · rename_i hin
      exact absurd ⟨n, a - (b.data + n * b.rowBytes), by omega, by omega, by omega⟩ hout
    · exact ih (by omega)

/-- A block of `H` rows of `R` bytes consists of the bytes `y * R + k` with
`y < H` and `k < R`. -/
theorem block_is_rows (d R H a : Nat) (hR : 0 < R) (hlo : d ≤ a) (hhi : a < d + H * R) :
    ∃ y k, y < H ∧ k < R ∧ a = d + y * R + k := by
  refine ⟨(a - d) / R, (a - d) % R, ?_, Nat.mod_lt _ hR, ?_⟩
  · apply Nat.div_lt_of_lt_mul
    rw [Nat.mul_comm]
    omega
  · have := Nat.div_add_mod (a - d) R
    rw [Nat.mul_comm] at this
    omega

/-- In the continuous case the single block of `cvl_image_clear` and of
`cvl_image_copy` is `height * rowBytes` bytes exactly. -/
theorem block_exact (b : CVLImageBuffer) (s : Nat)
    (hgood : cvl_image_is_good (some b) s = true) (hmem : b.inAddressSpace s)
    (hcont : cvl_image_is_continuous b s = true) :
    b.rowBytes = b.width * s ∧ mulSize b.height b.rowBytes = b.height * b.rowBytes ∧
    mulSize b.rowBytes b.height = b.height * b.rowBytes := by
  obtain ⟨hd, hh, _, _⟩ := good_facts b s hgood
  obtain ⟨hws, _, _⟩ := buffer_exact b s hgood hmem
  have hR : b.rowBytes = b.width * s := by
    simp only [cvl_image_is_continuous, beq_iff_eq] at hcont
    omega
  unfold CVLImageBuffer.inAddressSpace at hmem
  have hsplit : b.height * b.rowBytes = (b.height - 1) * b.rowBytes + b.rowBytes := by
    have : b.height = (b.height - 1) + 1 := by omega
    conv_lhs => rw [this, Nat.succ_mul]
  have hlt : b.height * b.rowBytes < 18446744073709551616 := by omega
  refine ⟨hR, mulSize_of_lt _ _ hlt, ?_⟩
  rw [mulSize_of_lt _ _ (by rw [Nat.mul_comm]; exact hlt), Nat.mul_comm]

theorem clear_written (m : Memory) (b : CVLImageBuffer) (s : Nat)
    (hgood : cvl_image_is_good (some b) s = true) (hmem : b.inAddressSpace s)
    (y k : Nat) (hy : y < b.height) (hk : k < b.width * s) :
    cvl_image_clear m b s (b.data + y * b.rowBytes + k) = 0 := by
  obtain ⟨hws, _, hline⟩ := buffer_exact b s hgood hmem
  unfold cvl_image_clear
  split
  · rename_i hcont
    obtain ⟨hR, hblock, _⟩ := block_exact b s hgood hmem hcont
    rw [hblock, memset_apply, if_pos]
    have := row_before b.rowBytes y b.height hy
    omega
  · exact clear_lines_written b s m hws (fun y hy => (hline (by omega) y hy).1)
      b.height (le_refl _) y k hy hk

theorem clear_frame (m : Memory) (b : CVLImageBuffer) (s : Nat)
    (hgood : cvl_image_is_good (some b) s = true) (hmem : b.inAddressSpace s)
    (a : Nat) (hout : ¬ b.isPixelByte s a) :
    cvl_image_clear m b s a = m a := by
  obtain ⟨hws, _, hline⟩ := buffer_exact b s hgood hmem
  unfold cvl_image_clear
  split
  · rename_i hcont
    obtain ⟨hR, hblock, _⟩ := block_exact b s hgood hmem hcont
    rw [hblock, memset_apply, if_neg]
    rintro ⟨hlo, hhi⟩
    rcases Nat.eq_zero_or_pos b.rowBytes with hz | hpos
    · rw [hz] at hhi
      omega
    · obtain ⟨y, k, hy, hk, ha⟩ := block_is_rows b.data b.rowBytes b.height a hpos hlo hhi
      exact hout ⟨y, k, hy, by omega, ha⟩
  · rcases Nat.eq_zero_or_pos (b.width * s) with hz | hpos
    · rw [clear_lines_zero_len b s m (by omega)]
    · exact clear_lines_frame b s m hws (fun y hy => (hline hpos y hy).1)
        b.height (le_refl _) a hout

/-- A padding byte of a row is no pixel byte of any row. -/
theorem padding_not_pixel (b : CVLImageBuffer) (s : Nat) (y k : Nat)
    (hk : b.width * s ≤ k) (hkR : k < b.rowBytes) :
    ¬ b.isPixelByte s (b.data + y * b.rowBytes + k) := by
  rintro ⟨y', k', _, hk', heq⟩
  rcases Nat.lt_trichotomy y y' with hlt | heq' | hgt
  · have := row_before b.rowBytes y y' hlt
    omega
  · subst heq'
    omega
  · have := row_before b.rowBytes y' y hgt
    omega

/-- C7: after `cvl_image_clear` on a well-formed buffer (continuous or padded)
whose pixel rows lie in the address space, every pixel byte is zero: for every
row `y < height` and byte offset `k < width * s`, the byte at
`data + y * rowBytes + k` is `0`. -/
theorem clear_zeroes_every_cell (m : Memory) (b : CVLImageBuffer) (s : Nat)
    (hgood : cvl_image_is_good (some b) s = true) (hmem : b.inAddressSpace s) :
    ∀ y k : Nat, y < b.height → k < b.width * s →
      cvl_image_clear m b s (b.data + y * b.rowBytes + k) = 0 :=
  fun y k hy hk => clear_written m b s hgood hmem y k hy hk

/-- C8: `cvl_image_clear` on a well-formed buffer whose pixel rows lie in the
address space leaves every padding byte as it was, for every row `y < height`
and offset `width * s ≤ k < rowBytes`, and writes no byte other than the
pixel bytes of the rows: every address that is not `data + y * rowBytes + k`
with `y < height` and `k < width * s` keeps its value. -/
theorem clear_preserves_padding (m : Memory) (b : CVLImageBuffer) (s : Nat)
    (hgood : cvl_image_is_good (some b) s = true) (hmem : b.inAddressSpace s) :
    (∀ y k : Nat, y < b.height → b.width * s ≤ k → k < b.rowBytes →
      cvl_image_clear m b s (b.data + y * b.rowBytes + k) = m (b.data + y * b.rowBytes + k)) ∧
    (∀ a : Nat, ¬ b.isPixelByte s a → cvl_image_clear m b s a = m a) :=
  ⟨fun y k _ hk hkR => clear_frame m b s hgood hmem _ (padding_not_pixel b s y k hk hkR),
   fun a hout => clear_frame m b s hgood hmem a hout⟩

theorem clear_zeroes_every_cell_witness :
    cvl_image_is_good (some ⟨1000, 3, 2, 12⟩) 4 = true ∧
    (⟨1000, 3, 2, 12⟩ : CVLImageBuffer).inAddressSpace 4 ∧
    cvl_image_clear (fun _ => 255) ⟨1000, 3, 2, 12⟩ 4 1017 = 0 :=
  ⟨by decide, by unfold CVLImageBuffer.inAddressSpace; decide,
   clear_zeroes_every_cell (fun _ => 255) ⟨1000, 3, 2, 12⟩ 4 (by decide)
     (by unfold CVLImageBuffer.inAddressSpace; decide) 1 5 (by decide) (by decide)⟩

theorem clear_preserves_padding_witness :
    cvl_image_is_good (some ⟨1000, 3, 2, 12⟩) 4 = true ∧
    (⟨1000, 3, 2, 12⟩ : CVLImageBuffer).inAddressSpace 4 ∧
    cvl_image_clear (fun _ => 255) ⟨1000, 3, 2, 12⟩ 4 1021 = 255 :=
  ⟨by decide, by unfold CVLImageBuffer.inAddressSpace; decide,
   (clear_preserves_padding (fun _ => 255) ⟨1000, 3, 2, 12⟩ 4 (by decide)
     (by unfold CVLImageBuffer.inAddressSpace; decide)).1 1 9 (by decide) (by decide)
     (by decide)⟩

theorem copy_lines_zero_len (src dst : CVLImageBuffer) (s : Nat) (m : Memory)
    (hz : mulSize src.width s = 0) (n : Nat) : cvl_image_copy_lines src dst s n m = m := by
  induction n with
  | zero => rfl
  | succ n ih =>
    show memcpy (cvl_image_copy_lines src dst s n m) _ _ (mulSize src.width s) = m
    rw [hz, memcpy_zero_len, ih]

theorem copy_lines_frame (src dst : CVLImageBuffer) (s : Nat) (m : Memory)
    (hw : mulSize src.width s = dst.width * s)
    (hline : ∀ y, y < dst.height → CVL_GET_LINE dst y = dst.data + y * dst.rowBytes)
    (n : Nat) (hn : n ≤ dst.height) (a : Nat)
    (hout : ¬ dst.isPixelByte s a) :
    cvl_image_copy_lines src dst s n m a = m a := by
  induction n with
  | zero => rfl
  | succ n ih =>
    show memcpy (cvl_image_copy_lines src dst s n m) (CVL_GET_LINE dst n)
      (CVL_GET_LINE src n) (mulSize src.width s) a = m a
    rw [memcpy_apply, hw, hline n (by omega)]
    split
    · rename_i hin
      exact absurd ⟨n, a - (dst.data + n * dst.rowBytes), by omega, by omega, by omega⟩ hout
    · exact ih (by omega)

theorem copy_lines_written (src dst : CVLImageBuffer) (s : Nat) (m : Memory)
    (hw : mulSize src.width s = dst.width * s) (hwe : src.width = dst.width)
    (hhe : src.height = dst.height) (hrow : dst.width * s ≤ dst.rowBytes)
    (hlined : ∀ y, y < dst.height → CVL_GET_LINE dst y = dst.data + y * dst.rowBytes)
    (hlines : ∀ y, y < src.height → CVL_GET_LINE src y = src.data + y * src.rowBytes)
    (hdisj : ∀ a, src.isPixelByte s a → ¬ dst.isPixelByte s a)
    (n : Nat) (hn : n ≤ dst.height) (y k : Nat) (hy : y < n) (hk : k < dst.width * s) :
    cvl_image_copy_lines src dst s n m (dst.data + y * dst.rowBytes + k)
      = m (src.data + y * src.rowBytes + k) := by
  induction n with
  | zero => omega
  | succ n ih =>
    show memcpy (cvl_image_copy_lines src dst s n m) (CVL_GET_LINE dst n)
      (CVL_GET_LINE src n) (mulSize src.width s) _ = _
    rw [memcpy_apply, hw, hlined n (by omega), hlines n (by omega)]
    split
    · rename_i hin
      have hyn : y = n := by
        by_contra hne
        have := row_before dst.rowBytes y n (by omega)
        omega
      subst hyn
      have hoff : dst.data + y * dst.rowBytes + k - (dst.data + y * dst.rowBytes) = k := by
        omega
      rw [hoff]
      exact copy_lines_frame src dst s m hw hlined y (by omega) _
        (hdisj _ ⟨y, k, by omega, by rw [hwe]; exact hk, rfl⟩)
    · rename_i hnin
      have hyn : y < n := by
        by_contra hge
        have : y = n := by omega
        subst this
        omega
      exact ih (by omega) hyn

/-- The memory `cvl_image_copy` leaves, when its assertions hold. -/
theorem copy_result (m : Memory) (src dst : CVLImageBuffer) (s : Nat)
    (hsrc : cvl_image_is_good (some src) s = true)
    (hdst : cvl_image_is_good (some dst) s = true)
    (hwe : src.width = dst.width) (hhe : src.height = dst.height) :
    cvl_image_copy m src dst s
      = some (if cvl_image_is_continuous src s = true ∧ cvl_image_is_continuous dst s = true
          then memcpy m dst.data src.data (mulSize src.rowBytes src.height)
          else cvl_image_copy_lines src dst s src.height m, dst) := by
  unfold cvl_image_copy
  rw [if_pos hsrc, if_pos hdst, if_pos ⟨hwe, hhe⟩]
  split <;> rfl

theorem copy_frame (m : Memory) (src dst : CVLImageBuffer) (s : Nat)
    (hsrc : cvl_image_is_good (some src) s = true)
    (hdst : cvl_image_is_good (some dst) s = true)
    (hwe : src.width = dst.width) (hhe : src.height = dst.height)
    (hdm : dst.inAddressSpace s) (a : Nat) (hout : ¬ dst.isPixelByte s a) :
    ∃ m1, cvl_image_copy m src dst s = some (m1, dst) ∧ m1 a = m a := by
  refine ⟨_, copy_result m src dst s hsrc hdst hwe hhe, ?_⟩
  obtain ⟨hws, _, hline⟩ := buffer_exact dst s hdst hdm
  split
  · rename_i hcont
    obtain ⟨hR, _, hblock⟩ := block_exact dst s hdst hdm hcont.2
    have hRs : src.rowBytes = dst.rowBytes := by
      have := hcont.1
      simp only [cvl_image_is_continuous, beq_iff_eq] at this
      rw [hwe, hws] at this
      omega
    rw [hRs, hhe, hblock, memcpy_apply, if_neg]
    rintro ⟨hlo, hhi⟩
    rcases Nat.eq_zero_or_pos dst.rowBytes with hz | hpos
    · rw [hz] at hhi
      omega
    · obtain ⟨y, k, hy, hk, ha⟩ := block_is_rows dst.data dst.rowBytes dst.height a hpos hlo hhi
      exact hout ⟨y, k, hy, by omega, ha⟩
  · rcases Nat.eq_zero_or_pos (dst.width * s) with hz | hpos
    · rw [copy_lines_zero_len src dst s m (by rw [hwe]; omega)]
    · rw [hhe]
      exact copy_lines_frame src dst s m (by rw [hwe]; exact hws)
        (fun y hy => (hline hpos y hy).1) dst.height (le_refl _) a hout

theorem copy_written (m : Memory) (src dst : CVLImageBuffer) (s : Nat)
    (hsrc : cvl_image_is_good (some src) s = true)
    (hdst : cvl_image_is_good (some dst) s = true)
    (hwe : src.width = dst.width) (hhe : src.height = dst.height)
    (hsm : src.inAddressSpace s) (hdm : dst.inAddressSpace s)
    (hdisj : ∀ a, src.isPixelByte s a → ¬ dst.isPixelByte s a)
    (y k : Nat) (hy : y < dst.height) (hk : k < dst.width * s) :
    ∃ m1, cvl_image_copy m src dst s = some (m1, dst) ∧
      m1 (dst.data + y * dst.rowBytes + k) = m (src.data + y * src.rowBytes + k) := by
  refine ⟨_, copy_result m src dst s hsrc hdst hwe hhe, ?_⟩
  obtain ⟨hws, hrow, hline⟩ := buffer_exact dst s hdst hdm
  obtain ⟨_, _, hlines⟩ := buffer_exact src s hsrc hsm
  split
  · rename_i hcont
    obtain ⟨hR, _, hblock⟩ := block_exact dst s hdst hdm hcont.2
    have hRs : src.rowBytes = dst.rowBytes := by
      have := hcont.1
      simp only [cvl_image_is_continuous, beq_iff_eq] at this
      rw [hwe, hws] at this
      omega
    have hb := row_before dst.rowBytes y dst.height hy
    rw [hRs, hhe, hblock, memcpy_apply, if_pos (by omega)]
    congr 1
    omega
  · rw [hhe]
    exact copy_lines_written src dst s m (by rw [hwe]; exact hws) hwe hhe hrow
      (fun y hy => (hline (by omega) y hy).1)
      (fun y hy => (hlines (by rw [hwe]; omega) y hy).1)
      hdisj dst.height (le_refl _) y k hy hk

/-- C5: for source and destination buffers that are well-formed for `s`, of
equal width and height, with pixel rows in the address space and no pixel byte
in common, `cvl_image_copy` returns and afterwards every row's pixel bytes
match: for every row `y < height` and byte offset `k < width * s`, the byte at
`dst.data + y * dst.rowBytes + k` equals the byte at
`src.data + y * src.rowBytes + k`, which is the byte the source held before
the call.  Both paths of the code, the single block copy of two continuous
buffers and the row-by-row copy, are covered. -/
theorem copy_rows_match (m : Memory) (src dst : CVLImageBuffer) (s : Nat)
    (hsrc : cvl_image_is_good (some src) s = true)
    (hdst : cvl_image_is_good (some dst) s = true)
    (hwe : src.width = dst.width) (hhe : src.height = dst.height)
    (hsm : src.inAddressSpace s) (hdm : dst.inAddressSpace s)
    (hdisj : ∀ a, src.isPixelByte s a → ¬ dst.isPixelByte s a) :
    ∃ m1 d1, cvl_image_copy m src dst s = some (m1, d1) ∧
      ∀ y k : Nat, y < src.height → k < src.width * s →
        m1 (dst.data + y * dst.rowBytes + k) = m1 (src.data + y * src.rowBytes + k) ∧
        m1 (src.data + y * src.rowBytes + k) = m (src.data + y * src.rowBytes + k) := by
  refine ⟨_, _, copy_result m src dst s hsrc hdst hwe hhe, ?_⟩
  intro y k hy hk
  obtain ⟨m1, h1, hw1⟩ := copy_written m src dst s hsrc hdst hwe hhe hsm hdm hdisj y k
    (by omega) (by rw [← hwe]; exact hk)
  obtain ⟨m2, h2, hf2⟩ := copy_frame m src dst s hsrc hdst hwe hhe hdm
    (src.data + y * src.rowBytes + k) (hdisj _ ⟨y, k, hy, hk, rfl⟩)
  rw [copy_result m src dst s hsrc hdst hwe hhe] at h1 h2
  have e1 := congrArg Prod.fst (Option.some.inj h1)
  have e2 := congrArg Prod.fst (Option.some.inj h2)
  simp only at e1 e2
  rw [e1, hw1]
  rw [← e2] at hf2
  rw [e1] at hf2
  exact ⟨hf2.symm, hf2⟩

theorem copy_rows_match_witness :
    cvl_image_is_good (some ⟨1000, 3, 2, 12⟩) 4 = true ∧
    cvl_image_is_good (some ⟨2000, 3, 2, 16⟩) 4 = true ∧
    (⟨1000, 3, 2, 12⟩ : CVLImageBuffer).inAddressSpace 4 ∧
    (⟨2000, 3, 2, 16⟩ : CVLImageBuffer).inAddressSpace 4 ∧
    ∃ m1 d1, cvl_image_copy (fun a => a % 251) ⟨1000, 3, 2, 12⟩ ⟨2000, 3, 2, 16⟩ 4
        = some (m1, d1) ∧ m1 2021 = m1 1017 ∧ m1 1017 = 13 := by
  have hdisj : ∀ a, (⟨1000, 3, 2, 12⟩ : CVLImageBuffer).isPixelByte 4 a →
      ¬ (⟨2000, 3, 2, 16⟩ : CVLImageBuffer).isPixelByte 4 a := by
    rintro a ⟨y, k, hy, hk, ha⟩ ⟨y', k', hy', hk', ha'⟩
    dsimp only at hy hk ha hy' hk' ha'
    omega
  refine ⟨by decide, by decide, by unfold CVLImageBuffer.inAddressSpace; decide,
    by unfold CVLImageBuffer.inAddressSpace; decide, ?_⟩
  obtain ⟨m1, d1, h1, hall⟩ :=
    copy_rows_match (fun a => a % 251) ⟨1000, 3, 2, 12⟩ ⟨2000, 3, 2, 16⟩ 4
      (by decide) (by decide) rfl rfl (by unfold CVLImageBuffer.inAddressSpace; decide)
      (by unfold CVLImageBuffer.inAddressSpace; decide) hdisj
  exact ⟨m1, d1, h1, (hall 1 5 (by decide) (by decide)).1, (hall 1 5 (by decide) (by decide)).2⟩

/-- C6: for well-formed buffers of equal width and height, `cvl_image_copy`
modifies only the pixel bytes of the destination (whose pixel rows lie in the
address space): every address that is not `dst.data + y * dst.rowBytes + k`
with `y < height` and `k < width * s` holds after the copy the value it held
before, in particular the destination's row padding, offsets
`width * s ≤ k < dst.rowBytes` of every row, and the destination descriptor
is returned as it was.  (With `memcpy` total as modelled here, this holds
whether or not the two buffers are separate.) -/
theorem copy_modifies_only_dest_pixels (m : Memory) (src dst : CVLImageBuffer) (s : Nat)
    (hsrc : cvl_image_is_good (some src) s = true)
    (hdst : cvl_image_is_good (some dst) s = true)
    (hwe : src.width = dst.width) (hhe : src.height = dst.height)
    (hdm : dst.inAddressSpace s) :
    ∃ m1 d1, cvl_image_copy m src dst s = some (m1, d1) ∧ d1 = dst ∧
      (∀ a : Nat, ¬ dst.isPixelByte s a → m1 a = m a) ∧
      (∀ y k : Nat, y < dst.height → dst.width * s ≤ k → k < dst.rowBytes →
        m1 (dst.data + y * dst.rowBytes + k) = m (dst.data + y * dst.rowBytes + k)) := by
  have hframe : ∀ a : Nat, ¬ dst.isPixelByte s a →
      (if cvl_image_is_continuous src s = true ∧ cvl_image_is_continuous dst s = true
          then memcpy m dst.data src.data (mulSize src.rowBytes src.height)
          else cvl_image_copy_lines src dst s src.height m) a = m a := by
    intro a hout
    obtain ⟨m2, h2, hf2⟩ := copy_frame m src dst s hsrc hdst hwe hhe hdm a hout
    rw [copy_result m src dst s hsrc hdst hwe hhe] at h2
    have e2 := congrArg Prod.fst (Option.some.inj h2)
    simp only at e2
    rw [e2]
    exact hf2
  exact ⟨_, _, copy_result m src dst s hsrc hdst hwe hhe, rfl, hframe,
    fun y k _ hk hkR => hframe _ (padding_not_pixel dst s y k hk hkR)⟩

theorem copy_modifies_only_dest_pixels_witness :
    cvl_image_is_good (some ⟨1000, 3, 2, 12⟩) 4 = true ∧
    cvl_image_is_good (some ⟨2000, 3, 2, 16⟩) 4 = true ∧
    (⟨2000, 3, 2, 16⟩ : CVLImageBuffer).inAddressSpace 4 ∧
    ∃ m1 d1, cvl_image_copy (fun a => a % 251) ⟨1000, 3, 2, 12⟩ ⟨2000, 3, 2, 16⟩ 4
        = some (m1, d1) ∧ d1 = ⟨2000, 3, 2, 16⟩ ∧ m1 2025 = 17 := by
  refine ⟨by decide, by decide, by unfold CVLImageBuffer.inAddressSpace; decide, ?_⟩
  obtain ⟨m1, d1, h1, hd, _, hpad⟩ :=
    copy_modifies_only_dest_pixels (fun a => a % 251) ⟨1000, 3, 2, 12⟩ ⟨2000, 3, 2, 16⟩ 4
      (by decide) (by decide) rfl rfl (by unfold CVLImageBuffer.inAddressSpace; decide)
  exact ⟨m1, d1, h1, hd, hpad 1 9 (by decide) (by decide) (by decide)⟩

/-! ## Geometry -/

/-- C9: for non-degenerate rectangles `a` and `b` with no `int` addition
overflowing, `u = cvl_rect_union a b` is the least bounding box:
`u.x = min a.x b.x`, `u.y = min a.y b.y`,
`u.x + u.width = max (a.x + a.width) (b.x + b.width)`,
`u.y + u.height = max (a.y + a.height) (b.y + b.height)`; hence `u` contains
`a` and `b`, and every rectangle that contains `a` and `b` contains `u`. -/
theorem union_is_least_bounding_box (a b : CVLRect)
    (_ha : 0 < a.width ∧ 0 < a.height) (_hb : 0 < b.width ∧ 0 < b.height)
    (hfit : unionAdditionsFit a b) :
    (cvl_rect_union a b).x = min a.x b.x ∧
    (cvl_rect_union a b).y = min a.y b.y ∧
    (cvl_rect_union a b).x + (cvl_rect_union a b).width
      = max (a.x + a.width) (b.x + b.width) ∧
    (cvl_rect_union a b).y + (cvl_rect_union a b).height
      = max (a.y + a.height) (b.y + b.height) ∧
    (cvl_rect_union a b).contains a ∧ (cvl_rect_union a b).contains b ∧
    ∀ r : CVLRect, r.contains a → r.contains b → r.contains (cvl_rect_union a b) := by
  obtain ⟨h1, h2, h3, h4, h5, h6⟩ := hfit
  unfold isInt at h1 h2 h3 h4 h5 h6
  have w1 : wrapInt (a.x + a.width) = a.x + a.width := by unfold wrapInt; omega
  have w2 : wrapInt (b.x + b.width) = b.x + b.width := by unfold wrapInt; omega
  have w3 : wrapInt (a.y + a.height) = a.y + a.height := by unfold wrapInt; omega
  have w4 : wrapInt (b.y + b.height) = b.y + b.height := by unfold wrapInt; omega
  simp only [cvl_rect_union, w1, w2, w3, w4] at h5 h6 ⊢
  have ex : (if a.x < b.x then a.x else b.x) = min a.x b.x := by
    rw [min_def]; split_ifs <;> omega
  have ey : (if a.y < b.y then a.y else b.y) = min a.y b.y := by
    rw [min_def]; split_ifs <;> omega
  have ex2 : (if a.x + a.width > b.x + b.width then a.x + a.width else b.x + b.width)
      = max (a.x + a.width) (b.x + b.width) := by
    rw [max_def]; split_ifs <;> omega
  have ey2 : (if a.y + a.height > b.y + b.height then a.y + a.height else b.y + b.height)
      = max (a.y + a.height) (b.y + b.height) := by
    rw [max_def]; split_ifs <;> omega
  simp only [ex, ey, ex2, ey2] at h5 h6 ⊢
  have hxle : min a.x b.x ≤ a.x ∧ min a.x b.x ≤ b.x := ⟨min_le_left _ _, min_le_right _ _⟩
  have hyle : min a.y b.y ≤ a.y ∧ min a.y b.y ≤ b.y := ⟨min_le_left _ _, min_le_right _ _⟩
  have hxge := le_max_left (a.x + a.width) (b.x + b.width)
  have hxge2 := le_max_right (a.x + a.width) (b.x + b.width)
  have hyge := le_max_left (a.y + a.height) (b.y + b.height)
  have hyge2 := le_max_right (a.y + a.height) (b.y + b.height)
  have hmx : max (a.x + a.width) (b.x + b.width) ≤ 2147483647
      ∧ -2147483648 ≤ max (a.x + a.width) (b.x + b.width) := by
    rw [max_def]; split_ifs <;> omega
  have hmy : max (a.y + a.height) (b.y + b.height) ≤ 2147483647
      ∧ -2147483648 ≤ max (a.y + a.height) (b.y + b.height) := by
    rw [max_def]; split_ifs <;> omega
  have ew : min a.x b.x + wrapInt (max (a.x + a.width) (b.x + b.width) - min a.x b.x)
      = max (a.x + a.width) (b.x + b.width) := by
    unfold wrapInt at h5 ⊢
    omega
  have eh : min a.y b.y + wrapInt (max (a.y + a.height) (b.y + b.height) - min a.y b.y)
      = max (a.y + a.height) (b.y + b.height) := by
    unfold wrapInt at h6 ⊢
    omega
  refine ⟨trivial, trivial, ew, eh, ?_, ?_, ?_⟩
  · simp only [CVLRect.contains]
    rw [ew, eh]
    exact ⟨hxle.1, hyle.1, hxge, hyge⟩
  · simp only [CVLRect.contains]
    rw [ew, eh]
    exact ⟨hxle.2, hyle.2, hxge2, hyge2⟩
  · intro r hra hrb
    simp only [CVLRect.contains] at hra hrb ⊢
    rw [ew, eh]
    exact ⟨le_min hra.1 hrb.1, le_min hra.2.1 hrb.2.1,
      max_le hra.2.2.1 hrb.2.2.1, max_le hra.2.2.2 hrb.2.2.2⟩

theorem union_is_least_bounding_box_witness :
    unionAdditionsFit ⟨0, 0, 4, 4⟩ ⟨2, 3, 5, 2⟩ ∧
    cvl_rect_union ⟨0, 0, 4, 4⟩ ⟨2, 3, 5, 2⟩ = ⟨0, 0, 7, 5⟩ ∧
    (cvl_rect_union ⟨0, 0, 4, 4⟩ ⟨2, 3, 5, 2⟩).contains ⟨0, 0, 4, 4⟩ ∧
    (cvl_rect_union ⟨0, 0, 4, 4⟩ ⟨2, 3, 5, 2⟩).contains ⟨2, 3, 5, 2⟩ :=
  ⟨by unfold unionAdditionsFit isInt; decide, by decide,
   (union_is_least_bounding_box ⟨0, 0, 4, 4⟩ ⟨2, 3, 5, 2⟩ (by decide) (by decide)
     (by unfold unionAdditionsFit isInt; decide)).2.2.2.2.1,
   (union_is_least_bounding_box ⟨0, 0, 4, 4⟩ ⟨2, 3, 5, 2⟩ (by decide) (by decide)
     (by unfold unionAdditionsFit isInt; decide)).2.2.2.2.2.1⟩

/-- C10, as stated, fails in both directions.  A buffer one row high and
`2^31` pixels wide contains the rect `(0, 0, 1, 1)`, yet the rect is rejected:
the width is compared after the cast `(int)image->width`, which is
`-2^31`.  And the rect `(2147483647, 0, 1, 1)` is accepted for a 10 by 10
buffer although `x + width = 2^31` exceeds the width 10: the `int` sum wraps
to `-2^31`. -/
theorem good_roi_counterexample :
    (cvl_rect_is_good_roi ⟨0, 0, 1, 1⟩ ⟨4096, 1, 2147483648, 2147483648⟩ = false ∧
      ((0 : Int) < (⟨0, 0, 1, 1⟩ : CVLRect).width ∧ (0 : Int) < (⟨0, 0, 1, 1⟩ : CVLRect).height ∧
        (0 : Int) ≤ (⟨0, 0, 1, 1⟩ : CVLRect).x ∧ (0 : Int) ≤ (⟨0, 0, 1, 1⟩ : CVLRect).y ∧
        (⟨0, 0, 1, 1⟩ : CVLRect).x + (⟨0, 0, 1, 1⟩ : CVLRect).width
          ≤ (((⟨4096, 1, 2147483648, 2147483648⟩ : CVLImageBuffer).width : Nat) : Int) ∧
        (⟨0, 0, 1, 1⟩ : CVLRect).y + (⟨0, 0, 1, 1⟩ : CVLRect).height
          ≤ (((⟨4096, 1, 2147483648, 2147483648⟩ : CVLImageBuffer).height : Nat) : Int))) ∧
    (cvl_rect_is_good_roi ⟨2147483647, 0, 1, 1⟩ ⟨4096, 10, 10, 40⟩ = true ∧
      ¬ ((⟨2147483647, 0, 1, 1⟩ : CVLRect).x + (⟨2147483647, 0, 1, 1⟩ : CVLRect).width
          ≤ (((⟨4096, 10, 10, 40⟩ : CVLImageBuffer).width : Nat) : Int))) := by
  decide

/-- C10, amended: for a rect whose sums `x + width` and `y + height` do not
overflow `int` and a buffer whose width and height are at most `INT_MAX`,
`cvl_rect_is_good_roi` is true if and only if `width > 0`, `height > 0`,
`x ≥ 0`, `y ≥ 0`, `x + width ≤ image.width` and `y + height ≤ image.height`. -/
theorem good_roi_iff_inside (r : CVLRect) (b : CVLImageBuffer)
    (hx : isInt (r.x + r.width)) (hy : isInt (r.y + r.height))
    (hw : b.width ≤ 2147483647) (hh : b.height ≤ 2147483647) :
    cvl_rect_is_good_roi r b = true ↔
      (0 < r.width ∧ 0 < r.height ∧ 0 ≤ r.x ∧ 0 ≤ r.y ∧
        r.x + r.width ≤ (b.width : Int) ∧ r.y + r.height ≤ (b.height : Int)) := by
  unfold isInt at hx hy
  have w1 : wrapInt (r.x + r.width) = r.x + r.width := by unfold wrapInt; omega
  have w2 : wrapInt (r.y + r.height) = r.y + r.height := by unfold wrapInt; omega
  have c1 : intOfSize b.width = (b.width : Int) := by unfold intOfSize wrapInt; omega
  have c2 : intOfSize b.height = (b.height : Int) := by unfold intOfSize wrapInt; omega
  unfold cvl_rect_is_good_roi
  rw [w1, w2, c1, c2]
  split_ifs <;> simp <;> omega

theorem good_roi_iff_inside_witness :
    isInt ((⟨3, 3, 4, 4⟩ : CVLRect).x + (⟨3, 3, 4, 4⟩ : CVLRect).width) ∧
    isInt ((⟨3, 3, 4, 4⟩ : CVLRect).y + (⟨3, 3, 4, 4⟩ : CVLRect).height) ∧
    (cvl_rect_is_good_roi ⟨3, 3, 4, 4⟩ ⟨4096, 10, 10, 40⟩ = true ↔
      ((0 : Int) < 4 ∧ (0 : Int) < 4 ∧ (0 : Int) ≤ 3 ∧ (0 : Int) ≤ 3 ∧
        (3 : Int) + 4 ≤ ((10 : Nat) : Int) ∧ (3 : Int) + 4 ≤ ((10 : Nat) : Int))) :=
  ⟨by unfold isInt; decide, by unfold isInt; decide,
   good_roi_iff_inside ⟨3, 3, 4, 4⟩ ⟨4096, 10, 10, 40⟩ (by unfold isInt; decide)
     (by unfold isInt; decide) (by decide) (by decide)⟩

/-- C11, as stated, fails: the full rect of a buffer is not always accepted.
For the empty buffer, of size `(0, 0)`, the full rect `(0, 0, 0, 0)` is
rejected because its width is not positive; and for a buffer one row high and
`2^31` pixels wide the width does not fit the rect's `int` field. -/
theorem full_rect_counterexample :
    cvl_rect_is_good_roi (fullRect cvl_image_make_empty) cvl_image_make_empty = false ∧
    fullRect cvl_image_make_empty = ⟨0, 0, 0, 0⟩ ∧
    cvl_rect_is_good_roi (fullRect ⟨4096, 1, 2147483648, 2147483648⟩)
      ⟨4096, 1, 2147483648, 2147483648⟩ = false := by
  decide

/-- C11, amended: for a buffer whose width `w` and height `h` are positive and
at most `INT_MAX`, `cvl_rect_is_good_roi` accepts the full rect `(0, 0, w, h)`;
and for every buffer it rejects the rect `(0, 0, w + 1, h)`. -/
theorem full_rect_accepted_wider_rejected (b : CVLImageBuffer) :
    (0 < b.width → b.width ≤ 2147483647 → 0 < b.height → b.height ≤ 2147483647 →
      fullRect b = ⟨0, 0, (b.width : Int), (b.height : Int)⟩ ∧
      cvl_rect_is_good_roi (fullRect b) b = true) ∧
    cvl_rect_is_good_roi (widerRect b) b = false := by
  constructor
  · intro hw hwm hh hhm
    have c1 : intOfSize b.width = (b.width : Int) := by unfold intOfSize wrapInt; omega
    have c2 : intOfSize b.height = (b.height : Int) := by unfold intOfSize wrapInt; omega
    have w0 : ∀ z : Int, wrapInt (0 + z) = wrapInt z := by intro z; rw [Int.zero_add]
    have w1 : wrapInt (b.width : Int) = (b.width : Int) := by unfold wrapInt; omega
    have w2 : wrapInt (b.height : Int) = (b.height : Int) := by unfold wrapInt; omega
    refine ⟨by simp only [fullRect, cvl_rect_make, c1, c2], ?_⟩
    simp only [fullRect, cvl_rect_make, cvl_rect_is_good_roi, c1, c2, w0, w1, w2]
    split_ifs <;> first | rfl | omega
  · simp only [widerRect, cvl_rect_make, cvl_rect_is_good_roi, Int.zero_add]
    split_ifs with h1 h2 h3
    · rfl
    · rfl
    · rfl
    · exfalso
      unfold intOfSize wrapInt at h1 h3
      omega

theorem full_rect_accepted_wider_rejected_witness :
    cvl_rect_is_good_roi (fullRect ⟨4096, 10, 10, 40⟩) ⟨4096, 10, 10, 40⟩ = true ∧
    cvl_rect_is_good_roi (widerRect ⟨4096, 10, 10, 40⟩) ⟨4096, 10, 10, 40⟩ = false :=
  ⟨((full_rect_accepted_wider_rejected ⟨4096, 10, 10, 40⟩).1 (by decide) (by decide)
      (by decide) (by decide)).2,
   (full_rect_accepted_wider_rejected ⟨4096, 10, 10, 40⟩).2⟩

/-! ## Allocation and release -/

theorem malloc_result (hp : Heap) (size : Nat) :
    (malloc hp size).1 = hp.supply.headD 0 ∧
    (malloc hp size).2.events = hp.events ++ [AllocEvent.malloc size (hp.supply.headD 0)] ∧
    (malloc hp size).2.supply = hp.supply.tail ∧
    (malloc hp size).2.bytes = hp.bytes := by
  unfold malloc
  cases hp.supply <;> simp

/-- A descriptor with a null data handle is reported invalid for every cell
size. -/
theorem null_data_not_good (b : CVLImageBuffer) (hd : b.data = 0) (s : Nat) :
    cvl_image_is_good (some b) s = false := by
  simp [cvl_image_is_good, hd]

/-- C12: for `h, w, s > 0`, `cvl_image_create h w s` makes exactly one `malloc`
call, for `w * h * s` bytes, and returns the descriptor with the result of that
call as data, height `h`, width `w` and rowBytes `w * s`; the descriptor is
continuous for `s`, and well-formed for `s` when the allocation succeeded.  The
products are the `size_t` products of the code; they are the exact products
whenever `w * h * s` fits 64 bits. -/
theorem create_is_continuous (hp : Heap) (h w s : Nat)
    (hh : 0 < h) (hw : 0 < w) (hs : 0 < s) :
    ∃ b1 hp1, cvl_image_create hp h w s = some (b1, hp1) ∧
      hp1.events = hp.events ++ [AllocEvent.malloc (mulSize (mulSize w h) s) b1.data] ∧
      b1.data = hp.supply.headD 0 ∧
      b1.height = h ∧ b1.width = w ∧ b1.rowBytes = mulSize w s ∧
      cvl_image_is_continuous b1 s = true ∧
      (b1.data ≠ 0 → cvl_image_is_good (some b1) s = true) ∧
      (w * h * s < 18446744073709551616 →
        mulSize (mulSize w h) s = w * h * s ∧ b1.rowBytes = w * s) := by
  have hexact : w * h * s < 18446744073709551616 →
      mulSize (mulSize w h) s = w * h * s ∧ mulSize w s = w * s := by
    intro hfit
    have h1 : w * h ≤ w * h * s := Nat.le_mul_of_pos_right _ hs
    have h2 : w * s ≤ w * h * s :=
      Nat.mul_le_mul_right s (Nat.le_mul_of_pos_right w hh)
    rw [mulSize_of_lt w h (by omega), mulSize_of_lt (w * h) s hfit, mulSize_of_lt w s (by omega)]
    exact ⟨rfl, rfl⟩
  obtain ⟨m1, m2, _, _⟩ := malloc_result hp (mulSize (mulSize w h) s)
  unfold cvl_image_create
  rw [if_pos ⟨hh, hw, hs⟩]
  refine ⟨_, _, rfl, ?_, m1, rfl, rfl, rfl, ?_, ?_, hexact⟩
  · rw [m2, m1]
  · simp [cvl_image_is_continuous]
  · intro hdata
    simp only [cvl_image_is_good, Bool.and_eq_true, bne_iff_ne, ne_eq, decide_eq_true_eq]
    exact ⟨⟨⟨hdata, by omega⟩, by omega⟩, le_refl _⟩

theorem create_is_continuous_witness :
    ∃ b1 hp1, cvl_image_create ⟨fun _ => 7, [], [8192]⟩ 10 10 4 = some (b1, hp1) ∧
      hp1.events = [AllocEvent.malloc 400 8192] ∧ b1.data = 8192 ∧ b1.rowBytes = 40 ∧
      cvl_image_is_continuous b1 4 = true := by
  obtain ⟨b1, hp1, h1, hev, hdata, _, _, hrow, hcont, _⟩ :=
    create_is_continuous ⟨fun _ => 7, [], [8192]⟩ 10 10 4 (by decide) (by decide) (by decide)
  refine ⟨b1, hp1, h1, ?_, hdata, ?_, hcont⟩
  · rw [hev, hdata]
    decide
  · rw [hrow]
    decide

/-- C13: `cvl_image_release` resets to the empty state and is idempotent.  On
a descriptor with a non-null data handle it frees the data (one `free` of it
is logged) and leaves the descriptor `cvl_image_make_empty = (NULL, 0, 0, 0)`;
on a descriptor with a null handle it is a no-op, descriptor and heap
unchanged; hence, for every descriptor, a second call changes nothing and
frees nothing. -/
theorem release_is_idempotent (hp : Heap) (b : CVLImageBuffer) :
    (b.data ≠ 0 →
      cvl_image_release hp b = (cvl_image_make_empty, free hp b.data) ∧
      cvl_image_make_empty = ⟨0, 0, 0, 0⟩ ∧
      (cvl_image_release hp b).2.events = hp.events ++ [AllocEvent.free b.data]) ∧
    (b.data = 0 → cvl_image_release hp b = (b, hp)) ∧
    cvl_image_release (cvl_image_release hp b).2 (cvl_image_release hp b).1
      = cvl_image_release hp b := by
  refine ⟨?_, ?_, ?_⟩
  · intro hd
    have : cvl_image_release hp b = (cvl_image_make_empty, free hp b.data) := by
      unfold cvl_image_release cvl_image_make_empty
      rw [if_neg hd]
    rw [this]
    exact ⟨rfl, rfl, rfl⟩
  · intro hd
    unfold cvl_image_release
    rw [if_pos hd]
  · by_cases hd : b.data = 0
    · have : cvl_image_release hp b = (b, hp) := by
        unfold cvl_image_release
        rw [if_pos hd]
      rw [this]
      exact this
    · have : cvl_image_release hp b = (cvl_image_make_empty, free hp b.data) := by
        unfold cvl_image_release cvl_image_make_empty
        rw [if_neg hd]
      rw [this]
      rfl

theorem release_is_idempotent_witness :
    (cvl_image_release ⟨fun _ => 7, [], []⟩ ⟨4096, 10, 10, 40⟩).1 = ⟨0, 0, 0, 0⟩ ∧
    (cvl_image_release ⟨fun _ => 7, [], []⟩ ⟨4096, 10, 10, 40⟩).2.events
      = [AllocEvent.free 4096] := by
  obtain ⟨h1, _, hev⟩ :=
    (release_is_idempotent ⟨fun _ => 7, [], []⟩ ⟨4096, 10, 10, 40⟩).1 (by decide)
  exact ⟨by rw [h1]; rfl, by rw [hev]; rfl⟩

/-- C14, as stated, fails: the product is the `size_t` product.  The
descriptor with height 1, width `2^63` and rowBytes 0 is reported well-formed
for cell size 2, since `2^63 * 2` is `0` in 64 bits, although its rowBytes is
below the mathematical product `2^64`. -/
theorem is_good_counterexample :
    cvl_image_is_good (some ⟨4096, 1, 9223372036854775808, 0⟩) 2 = true ∧
    ¬ ((⟨4096, 1, 9223372036854775808, 0⟩ : CVLImageBuffer).rowBytes
        ≥ (⟨4096, 1, 9223372036854775808, 0⟩ : CVLImageBuffer).width * 2) := by
  decide

/-- C14, amended: `cvl_image_is_good b s` is true if and only if the descriptor
pointer is non-null, the data handle is non-null, height and width are
positive and rowBytes is at least the `size_t` product `width * s`, that is the
product modulo `2^64`, which is the mathematical product whenever that is
below `2^64`.  In particular the empty descriptor `(NULL, 0, 0, 0)` and every
released descriptor are reported invalid for every cell size. -/
theorem is_good_iff (b : Option CVLImageBuffer) (s : Nat) :
    (cvl_image_is_good b s = true ↔
      ∃ im, b = some im ∧ im.data ≠ 0 ∧ 0 < im.height ∧ 0 < im.width ∧
        (im.width * s) % 18446744073709551616 ≤ im.rowBytes) ∧
    (∀ im, b = some im → im.width * s < 18446744073709551616 →
      (cvl_image_is_good b s = true ↔
        im.data ≠ 0 ∧ 0 < im.height ∧ 0 < im.width ∧ im.width * s ≤ im.rowBytes)) ∧
    cvl_image_is_good (some cvl_image_make_empty) s = false ∧
    (∀ (hp : Heap) (im : CVLImageBuffer),
      cvl_image_is_good (some (cvl_image_release hp im).1) s = false) := by
  have hsome : ∀ im : CVLImageBuffer, (cvl_image_is_good (some im) s = true ↔
      im.data ≠ 0 ∧ 0 < im.height ∧ 0 < im.width ∧
        (im.width * s) % 18446744073709551616 ≤ im.rowBytes) := by
    intro im
    simp only [cvl_image_is_good, mulSize, wrapSize, Bool.and_eq_true, bne_iff_ne, ne_eq,
      decide_eq_true_eq, and_assoc, Nat.pos_iff_ne_zero, ge_iff_le]
  refine ⟨?_, ?_, ?_, ?_⟩
  · cases b with
    | none => simp [cvl_image_is_good]
    | some im =>
      rw [hsome im]
      constructor
      · intro h
        exact ⟨im, rfl, h⟩
      · rintro ⟨im2, heq, h⟩
        cases heq
        exact h
  · intro im hb hfit
    subst hb
    rw [hsome im, Nat.mod_eq_of_lt hfit]
  · exact null_data_not_good _ rfl s
  · intro hp im
    apply null_data_not_good
    unfold cvl_image_release
    split
    · assumption
    · rfl

/-- C15: when the `malloc` call of `cvl_image_create h w s` fails, the
descriptor returned has a null data handle, `cvl_image_is_good` reports it
invalid for every cell size, and `cvl_image_release` on it is a no-op:
descriptor and heap unchanged, nothing freed. -/
theorem create_failure_is_surfaced (hp : Heap) (h w s : Nat)
    (hh : 0 < h) (hw : 0 < w) (hs : 0 < s) (hfail : hp.supply.headD 0 = 0) :
    ∃ b1 hp1, cvl_image_create hp h w s = some (b1, hp1) ∧
      b1.data = 0 ∧
      (∀ s1 : Nat, cvl_image_is_good (some b1) s1 = false) ∧
      cvl_image_release hp1 b1 = (b1, hp1) := by
  obtain ⟨m1, _, _, _⟩ := malloc_result hp (mulSize (mulSize w h) s)
  unfold cvl_image_create
  rw [if_pos ⟨hh, hw, hs⟩]
  have hd : (malloc hp (mulSize (mulSize w h) s)).1 = 0 := by rw [m1, hfail]
  refine ⟨_, _, rfl, hd, fun s1 => null_data_not_good _ hd s1, ?_⟩
  unfold cvl_image_release
  rw [if_pos hd]

theorem create_failure_is_surfaced_witness :
    (⟨fun _ => 7, [], []⟩ : Heap).supply.headD 0 = 0 ∧
    ∃ b1 hp1, cvl_image_create ⟨fun _ => 7, [], []⟩ 10 10 4 = some (b1, hp1) ∧
      b1.data = 0 ∧ cvl_image_is_good (some b1) 4 = false := by
  refine ⟨rfl, ?_⟩
  obtain ⟨b1, hp1, h1, hd, hbad, _⟩ :=
    create_failure_is_surfaced ⟨fun _ => 7, [], []⟩ 10 10 4 (by decide) (by decide)
      (by decide) rfl
  exact ⟨b1, hp1, h1, hd, hbad 4⟩

/-- C16, as stated, fails: `cvl_image_reuse` releases before it allocates.
With a 5 by 5 buffer at address 4096, a request for 10 by 10 cells of 4 bytes
and a failing `malloc`, the old data is freed and the descriptor is left
`(NULL, 10, 10, 40)`, not as it was. -/
theorem reuse_failure_counterexample :
    (cvl_image_reuse ⟨fun _ => 7, [], []⟩ ⟨4096, 5, 5, 20⟩ 10 10 4).map
        (fun r => (r.1, r.2.events))
      = some (⟨0, 10, 10, 40⟩, [AllocEvent.free 4096, AllocEvent.malloc 400 0]) ∧
    (⟨0, 10, 10, 40⟩ : CVLImageBuffer) ≠ ⟨4096, 5, 5, 20⟩ := by
  decide

/-- C16, amended: when `cvl_image_reuse` has to reallocate and the new
allocation fails, the old allocation has been released all the same (one
`free` of the old data when it was non-null), no new buffer is obtained, and
the descriptor is left `(NULL, h, w, w * s)`, which `cvl_image_is_good` reports
invalid for every cell size. -/
theorem reuse_failure_releases_old (hp : Heap) (b : CVLImageBuffer) (h w s : Nat)
    (hh : 0 < h) (hw : 0 < w) (hs : 0 < s)
    (hreq : ¬ (cvl_image_is_good (some b) s = true ∧ b.height = h ∧ b.width = w
      ∧ b.rowBytes = mulSize w s))
    (hfail : hp.supply.headD 0 = 0) :
    ∃ hp1, cvl_image_reuse hp b h w s = some (⟨0, h, w, mulSize w s⟩, hp1) ∧
      hp1.events = hp.events ++ (if b.data = 0 then [] else [AllocEvent.free b.data])
        ++ [AllocEvent.malloc (mulSize (mulSize w h) s) 0] ∧
      (∀ s1 : Nat, cvl_image_is_good (some ⟨0, h, w, mulSize w s⟩) s1 = false) := by
  have hre : cvl_image_reuse hp b h w s
      = cvl_image_create (cvl_image_release hp b).2 h w s := by
    unfold cvl_image_reuse
    rw [if_pos ⟨hh, hw, hs⟩, if_neg hreq]
  have hsup : (cvl_image_release hp b).2.supply = hp.supply := by
    unfold cvl_image_release free
    split <;> rfl
  have hev : (cvl_image_release hp b).2.events
      = hp.events ++ (if b.data = 0 then [] else [AllocEvent.free b.data]) := by
    unfold cvl_image_release free
    split <;> simp
  obtain ⟨m1, m2, _, _⟩ := malloc_result (cvl_image_release hp b).2 (mulSize (mulSize w h) s)
  rw [hsup, hfail] at m1 m2
  rw [hre]
  unfold cvl_image_create
  rw [if_pos ⟨hh, hw, hs⟩]
  refine ⟨(malloc (cvl_image_release hp b).2 (mulSize (mulSize w h) s)).2, ?_, ?_,
    fun s1 => null_data_not_good _ rfl s1⟩
  · dsimp only
    rw [m1]
  · rw [m2, hev]

theorem reuse_failure_releases_old_witness :
    (⟨fun _ => 7, [], []⟩ : Heap).supply.headD 0 = 0 ∧
    ∃ hp1, cvl_image_reuse ⟨fun _ => 7, [], []⟩ ⟨4096, 5, 5, 20⟩ 10 10 4
        = some (⟨0, 10, 10, 40⟩, hp1) ∧
      hp1.events = [AllocEvent.free 4096, AllocEvent.malloc 400 0] := by
  refine ⟨rfl, ?_⟩
  obtain ⟨hp1, h1, hev, _⟩ :=
    reuse_failure_releases_old ⟨fun _ => 7, [], []⟩ ⟨4096, 5, 5, 20⟩ 10 10 4
      (by decide) (by decide) (by decide) (by decide) rfl
  exact ⟨hp1, h1, by rw [hev]; decide⟩

/-! ## Centers -/

/-- The `int` division by 2 of the source rounds toward zero. -/
theorem tdiv_two_eq_truncHalf (z : Int) : Int.tdiv z 2 = truncHalf z := by
  unfold truncHalf
  split
  · rename_i h
    exact Int.tdiv_eq_ediv h (by decide)
  · rename_i h
    have h1 : Int.tdiv z 2 = -(Int.tdiv (-z) 2) := by
      rw [Int.neg_tdiv, Int.neg_neg]
    rw [h1, Int.tdiv_eq_ediv (by omega) (by decide)]

/-- C17: for a point `c` and radii `rad_x, rad_y ≥ 0` with no `int` overflow,
`r = cvl_rect_make_around_center c rad_x rad_y` has width `1 + 2 * rad_x` and
height `1 + 2 * rad_y`, both odd, and `cvl_rect_center r = c`. -/
theorem around_center_is_centered (c : CVLPoint) (rad_x rad_y : Int)
    (hx : 0 ≤ rad_x) (hy : 0 ≤ rad_y) (hfit : aroundCenterFits c rad_x rad_y) :
    (cvl_rect_make_around_center c rad_x rad_y).width = 1 + 2 * rad_x ∧
    (cvl_rect_make_around_center c rad_x rad_y).height = 1 + 2 * rad_y ∧
    (cvl_rect_make_around_center c rad_x rad_y).width % 2 = 1 ∧
    (cvl_rect_make_around_center c rad_x rad_y).height % 2 = 1 ∧
    cvl_rect_center (cvl_rect_make_around_center c rad_x rad_y) = c := by
  obtain ⟨h1, h2, h3, h4, h5, h6⟩ := hfit
  unfold isInt at h1 h2 h3 h4 h5 h6
  have wx : wrapInt (rad_x * 2) = rad_x * 2 := by unfold wrapInt; omega
  have wy : wrapInt (rad_y * 2) = rad_y * 2 := by unfold wrapInt; omega
  have wx1 : wrapInt (1 + rad_x * 2) = 1 + 2 * rad_x := by unfold wrapInt; omega
  have wy1 : wrapInt (1 + rad_y * 2) = 1 + 2 * rad_y := by unfold wrapInt; omega
  have ox : wrapInt (c.x - rad_x) = c.x - rad_x := by unfold wrapInt; omega
  have oy : wrapInt (c.y - rad_y) = c.y - rad_y := by unfold wrapInt; omega
  have tx : Int.tdiv (1 + 2 * rad_x) 2 = rad_x := by
    rw [tdiv_two_eq_truncHalf]; unfold truncHalf; split <;> omega
  have ty : Int.tdiv (1 + 2 * rad_y) 2 = rad_y := by
    rw [tdiv_two_eq_truncHalf]; unfold truncHalf; split <;> omega
  have cx : wrapInt (c.x - rad_x + rad_x) = c.x := by unfold wrapInt; omega
  have cy : wrapInt (c.y - rad_y + rad_y) = c.y := by unfold wrapInt; omega
  simp only [cvl_rect_make_around_center, cvl_rect_center, cvl_point_make, wx, wy, wx1, wy1,
    ox, oy, tx, ty, cx, cy]
  exact ⟨trivial, trivial, by omega, by omega, trivial⟩

theorem around_center_is_centered_witness :
    aroundCenterFits ⟨5, 7⟩ 2 3 ∧
    cvl_rect_make_around_center ⟨5, 7⟩ 2 3 = ⟨3, 4, 5, 7⟩ ∧
    cvl_rect_center (cvl_rect_make_around_center ⟨5, 7⟩ 2 3) = ⟨5, 7⟩ :=
  ⟨by unfold aroundCenterFits isInt; decide, by decide,
   (around_center_is_centered ⟨5, 7⟩ 2 3 (by decide) (by decide)
     (by unfold aroundCenterFits isInt; decide)).2.2.2.2⟩

/-- C18: for every rect `r`, negative width or height included,
`cvl_rect_center r = (r.x + q_w, r.y + q_h)` with `q_w` and `q_h` the halves of
width and height rounded toward zero, not toward minus infinity: the sums are
`int` sums, and are the exact sums when they do not overflow; half of a
negative odd number is one more than its floor half, so that width `-3`
contributes `-1`, not `-2`. -/
theorem center_truncates (r : CVLRect) :
    cvl_rect_center r
      = ⟨wrapInt (r.x + truncHalf r.width), wrapInt (r.y + truncHalf r.height)⟩ ∧
    (isInt (r.x + truncHalf r.width) → isInt (r.y + truncHalf r.height) →
      cvl_rect_center r = ⟨r.x + truncHalf r.width, r.y + truncHalf r.height⟩) ∧
    (∀ z : Int, 0 ≤ z → truncHalf z = Int.fdiv z 2) ∧
    (∀ z : Int, z < 0 → z % 2 = 0 → truncHalf z = Int.fdiv z 2) ∧
    (∀ z : Int, z < 0 → z % 2 = 1 → truncHalf z = Int.fdiv z 2 + 1) ∧
    truncHalf (-3) = -1 ∧ Int.fdiv (-3) 2 = -2 ∧
    cvl_rect_center ⟨10, 20, -3, -3⟩ = ⟨9, 19⟩ := by
  have hc : cvl_rect_center r
      = ⟨wrapInt (r.x + truncHalf r.width), wrapInt (r.y + truncHalf r.height)⟩ := by
    unfold cvl_rect_center cvl_point_make
    rw [tdiv_two_eq_truncHalf, tdiv_two_eq_truncHalf]
  refine ⟨hc, ?_, ?_, ?_, ?_, by decide, by decide, by decide⟩
  · intro h1 h2
    unfold isInt at h1 h2
    rw [hc]
    have e1 : wrapInt (r.x + truncHalf r.width) = r.x + truncHalf r.width := by
      unfold wrapInt; omega
    have e2 : wrapInt (r.y + truncHalf r.height) = r.y + truncHalf r.height := by
      unfold wrapInt; omega
    rw [e1, e2]
  · intro z hz
    rw [Int.fdiv_eq_ediv z (by decide)]
    unfold truncHalf
    rw [if_pos hz]
  · intro z hz hev
    rw [Int.fdiv_eq_ediv z (by decide)]
    unfold truncHalf
    rw [if_neg (by omega)]
    omega
  · intro z hz hodd
    rw [Int.fdiv_eq_ediv z (by decide)]
    unfold truncHalf
    rw [if_neg (by omega)]
    omega

theorem center_truncates_witness :
    cvl_rect_center ⟨10, 20, -3, 5⟩ = ⟨9, 22⟩ := by
  have h := (center_truncates ⟨10, 20, -3, 5⟩).2.1 (by unfold isInt truncHalf; decide)
    (by unfold isInt truncHalf; decide)
  rw [h]
  decide

/-! ## Views of views -/

theorem buffer_ext (a b : CVLImageBuffer) (h1 : a.data = b.data) (h2 : a.height = b.height)
    (h3 : a.width = b.width) (h4 : a.rowBytes = b.rowBytes) : a = b := by
  cases a
  cases b
  simp_all

/-- A region of interest the code accepts, whose `int` sums do not overflow,
lies inside the buffer. -/
theorem good_roi_inside (roi : CVLRect) (b : CVLImageBuffer)
    (hroi : cvl_rect_is_good_roi roi b = true)
    (hx : isInt (roi.x + roi.width)) (hy : isInt (roi.y + roi.height)) :
    roi.x + roi.width ≤ (b.width : Int) ∧ roi.y + roi.height ≤ (b.height : Int) := by
  unfold isInt at hx hy
  have w1 : wrapInt (roi.x + roi.width) = roi.x + roi.width := by unfold wrapInt; omega
  have w2 : wrapInt (roi.y + roi.height) = roi.y + roi.height := by unfold wrapInt; omega
  have c1 : intOfSize b.width ≤ (b.width : Int) := by unfold intOfSize wrapInt; omega
  have c2 : intOfSize b.height ≤ (b.height : Int) := by unfold intOfSize wrapInt; omega
  unfold cvl_rect_is_good_roi at hroi
  rw [w1, w2] at hroi
  split at hroi
  · simp at hroi
  · split at hroi
    · simp at hroi
    · split at hroi
      · simp at hroi
      · omega

/-- The view of a well-formed buffer in the address space, at an accepted
region of interest without `int` overflow, for a positive cell size: its
fields, and that it is well-formed and in the address space itself. -/
theorem subimage_good (b : CVLImageBuffer) (s : Nat) (roi : CVLRect)
    (hgood : cvl_image_is_good (some b) s = true)
    (hroi : cvl_rect_is_good_roi roi b = true)
    (hs : 0 < s) (hmem : b.inAddressSpace s)
    (hx : isInt (roi.x + roi.width)) (hy : isInt (roi.y + roi.height)) :
    ∃ v, cvl_image_subimage b roi s = some v ∧
      v.data = b.data + roi.y.toNat * b.rowBytes + roi.x.toNat * s ∧
      (v.height : Int) = roi.height ∧ (v.width : Int) = roi.width ∧
      v.rowBytes = b.rowBytes ∧ v.width * s ≤ b.rowBytes ∧
      mulSize v.width s = v.width * s ∧
      cvl_image_is_good (some v) s = true ∧ v.inAddressSpace s := by
  obtain ⟨hin, hin2⟩ := good_roi_inside roi b hroi hx hy
  obtain ⟨hw, hh, hx0, hy0⟩ := good_roi_nonneg roi b hroi
  obtain ⟨hd, _, _, hrow⟩ := good_facts b s hgood
  have hdata := subimage_data_exact b s roi hgood hroi hs hmem hin hin2
  unfold isInt at hx hy
  have eh : sizeOfInt roi.height = roi.height.toNat := by
    rw [sizeOfInt_of_nonneg _ (by omega)]; unfold wrapSize; omega
  have ew : sizeOfInt roi.width = roi.width.toNat := by
    rw [sizeOfInt_of_nonneg _ (by omega)]; unfold wrapSize; omega
  unfold CVLImageBuffer.inAddressSpace at hmem
  have hws : mulSize b.width s = b.width * s := mulSize_of_lt _ _ (by omega)
  have hwW : roi.x.toNat + roi.width.toNat ≤ b.width := by omega
  have hhH : roi.y.toNat + roi.height.toNat ≤ b.height := by omega
  have m1 : (roi.x.toNat + roi.width.toNat) * s ≤ b.width * s := Nat.mul_le_mul_right _ hwW
  rw [Nat.add_mul] at m1
  have m2 : (roi.y.toNat + (roi.height.toNat - 1)) * b.rowBytes ≤ (b.height - 1) * b.rowBytes :=
    Nat.mul_le_mul_right _ (by omega)
  rw [Nat.add_mul] at m2
  have hvw : mulSize roi.width.toNat s = roi.width.toNat * s := mulSize_of_lt _ _ (by omega)
  refine ⟨{ data := ptrAdd (ptrAdd b.data (mulSize b.rowBytes (sizeOfInt roi.y)))
                (mulSize s (sizeOfInt roi.x))
            height := sizeOfInt roi.height
            width := sizeOfInt roi.width
            rowBytes := b.rowBytes },
    by simp only [cvl_image_subimage, hgood, hroi, if_true], hdata, ?_, ?_, rfl,
    ?_, ?_, ?_, ?_⟩
  · show ((sizeOfInt roi.height : Nat) : Int) = roi.height
    rw [eh]; omega
  · show ((sizeOfInt roi.width : Nat) : Int) = roi.width
    rw [ew]; omega
  · show sizeOfInt roi.width * s ≤ b.rowBytes
    rw [ew]; omega
  · show mulSize (sizeOfInt roi.width) s = sizeOfInt roi.width * s
    rw [ew]; exact hvw
  · simp only [cvl_image_is_good, Bool.and_eq_true, bne_iff_ne, ne_eq, decide_eq_true_eq, eh,
      ew, hdata, hvw]
    refine ⟨⟨⟨by omega, by omega⟩, by omega⟩, by omega⟩
  · show ptrAdd _ _ + (sizeOfInt roi.height - 1) * b.rowBytes + sizeOfInt roi.width * s
      ≤ 18446744073709551616
    rw [hdata, eh, ew]
    omega

/-- C19: taking a view preserves well-formedness.  For a buffer `b`
well-formed for a cell size `s > 0`, with pixel rows in the address space, and
a region of interest `roi` that `cvl_rect_is_good_roi` accepts (its `int` sums
not overflowing), `cvl_image_subimage` returns a view `v` that is well-formed
for `s`: non-null data, `v.height = roi.height > 0`, `v.width = roi.width > 0`,
`v.rowBytes = b.rowBytes ≥ v.width * s`; and `v` is continuous for `s` only if
(indeed exactly if) `roi.width * s = b.rowBytes`. -/
theorem subimage_preserves_good (b : CVLImageBuffer) (s : Nat) (roi : CVLRect)
    (hgood : cvl_image_is_good (some b) s = true)
    (hroi : cvl_rect_is_good_roi roi b = true)
    (hs : 0 < s) (hmem : b.inAddressSpace s)
    (hx : isInt (roi.x + roi.width)) (hy : isInt (roi.y + roi.height)) :
    ∃ v, cvl_image_subimage b roi s = some v ∧
      cvl_image_is_good (some v) s = true ∧
      v.data ≠ 0 ∧
      (v.height : Int) = roi.height ∧ 0 < roi.height ∧
      (v.width : Int) = roi.width ∧ 0 < roi.width ∧
      v.rowBytes = b.rowBytes ∧ v.width * s ≤ b.rowBytes ∧
      (cvl_image_is_continuous v s = true ↔ roi.width * (s : Int) = (b.rowBytes : Int)) := by
  obtain ⟨v, hv, _, hvh, hvw, hvr, hle, hmul, hvgood, _⟩ :=
    subimage_good b s roi hgood hroi hs hmem hx hy
  obtain ⟨hw, hh, _, _⟩ := good_roi_nonneg roi b hroi
  refine ⟨v, hv, hvgood, (good_facts v s hvgood).1, hvh, hh, hvw, hw, hvr, hle, ?_⟩
  simp only [cvl_image_is_continuous, beq_iff_eq, hmul, hvr]
  rw [← hvw]
  constructor
  · intro h
    exact_mod_cast h
  · intro h
    exact_mod_cast h

theorem subimage_preserves_good_witness :
    cvl_image_is_good (some ⟨1000, 10, 10, 40⟩) 4 = true ∧
    cvl_rect_is_good_roi ⟨3, 3, 4, 4⟩ ⟨1000, 10, 10, 40⟩ = true ∧
    ∃ v, cvl_image_subimage ⟨1000, 10, 10, 40⟩ ⟨3, 3, 4, 4⟩ 4 = some v ∧
      cvl_image_is_good (some v) 4 = true := by
  refine ⟨by decide, by decide, ?_⟩
  obtain ⟨v, hv, hvgood, _⟩ :=
    subimage_preserves_good ⟨1000, 10, 10, 40⟩ 4 ⟨3, 3, 4, 4⟩ (by decide) (by decide)
      (by decide) (by unfold CVLImageBuffer.inAddressSpace; decide)
      (by unfold isInt; decide) (by unfold isInt; decide)
  exact ⟨v, hv, hvgood⟩

theorem wrapInt_of_isInt (z : Int) (h : isInt z) : wrapInt z = z := by
  unfold isInt at h
  unfold wrapInt
  omega

theorem toNat_add_nonneg (a b : Int) (ha : 0 ≤ a) (hb : 0 ≤ b) :
    (a + b).toNat = b.toNat + a.toNat := by
  omega

/-- The rect of a view of a view, moved by the origin of the first view, is
accepted for the parent. -/
theorem move_good_roi (r1 r2 : CVLRect) (b : CVLImageBuffer)
    (hr1 : cvl_rect_is_good_roi r1 b = true)
    (h1x : isInt (r1.x + r1.width)) (h1y : isInt (r1.y + r1.height))
    (w2 : 0 < r2.width) (hh2 : 0 < r2.height) (x2 : 0 ≤ r2.x) (y2 : 0 ≤ r2.y)
    (i2x : r2.x + r2.width ≤ r1.width) (i2y : r2.y + r2.height ≤ r1.height) :
    cvl_rect_move r2 (cvl_rect_origin r1)
      = ⟨r2.x + r1.x, r2.y + r1.y, r2.width, r2.height⟩ ∧
    cvl_rect_is_good_roi ⟨r2.x + r1.x, r2.y + r1.y, r2.width, r2.height⟩ b = true ∧
    isInt (r2.x + r1.x + r2.width) ∧ isInt (r2.y + r1.y + r2.height) := by
  obtain ⟨w1, hh1, x1, y1⟩ := good_roi_nonneg r1 b hr1
  have a1 := wrapInt_of_isInt _ h1x
  have a2 := wrapInt_of_isInt _ h1y
  unfold isInt at h1x h1y
  have hrx : isInt (r2.x + r1.x + r2.width) := by unfold isInt; omega
  have hry : isInt (r2.y + r1.y + r2.height) := by unfold isInt; omega
  have ex : wrapInt (r2.x + r1.x) = r2.x + r1.x :=
    wrapInt_of_isInt _ (by unfold isInt; omega)
  have ey : wrapInt (r2.y + r1.y) = r2.y + r1.y :=
    wrapInt_of_isInt _ (by unfold isInt; omega)
  have a3 := wrapInt_of_isInt _ hrx
  have a4 := wrapInt_of_isInt _ hry
  refine ⟨?_, ?_, hrx, hry⟩
  · simp only [cvl_rect_move, cvl_rect_origin, cvl_rect_make, cvl_point_make, ex, ey]
  · unfold cvl_rect_is_good_roi at hr1 ⊢
    rw [a1, a2] at hr1
    simp only [a3, a4]
    clear a1 a2 a3 a4 ex ey
    generalize intOfSize b.width = W at hr1 ⊢
    generalize intOfSize b.height = H at hr1 ⊢
    split at hr1
    · simp at hr1
    · split at hr1
      · simp at hr1
      · split at hr1
        · simp at hr1
        · split_ifs <;> first | rfl | omega


/-- C20: views compose.  For a buffer `b` well-formed for a cell size `s > 0`,
with pixel rows in the address space, a region of interest `r1` accepted for
`b` and a region of interest `r2` accepted for the view `subimage b r1 s` (no
`int` sum of either overflowing), the translated rect
`r = cvl_rect_move r2 (cvl_rect_origin r1)` is accepted for `b`, and the view
of the view at `r2` is the view of `b` at `r`: same data address, height,
width and rowBytes. -/
theorem subimage_composes (b : CVLImageBuffer) (s : Nat) (r1 r2 : CVLRect)
    (hgood : cvl_image_is_good (some b) s = true)
    (hr1 : cvl_rect_is_good_roi r1 b = true)
    (hs : 0 < s) (hmem : b.inAddressSpace s)
    (h1x : isInt (r1.x + r1.width)) (h1y : isInt (r1.y + r1.height))
    (h2x : isInt (r2.x + r2.width)) (h2y : isInt (r2.y + r2.height)) :
    ∃ v1, cvl_image_subimage b r1 s = some v1 ∧
      (cvl_rect_is_good_roi r2 v1 = true →
        cvl_rect_is_good_roi (cvl_rect_move r2 (cvl_rect_origin r1)) b = true ∧
        ∃ v2, cvl_image_subimage v1 r2 s = some v2 ∧
          cvl_image_subimage b (cvl_rect_move r2 (cvl_rect_origin r1)) s = some v2) := by
  obtain ⟨v1, hv1, d1, vh1, vw1, vr1, _, _, g1, mem1⟩ :=
    subimage_good b s r1 hgood hr1 hs hmem h1x h1y
  refine ⟨v1, hv1, ?_⟩
  intro hr2
  obtain ⟨v2, hv2, d2, vh2, vw2, vr2, _, _, _, _⟩ :=
    subimage_good v1 s r2 g1 hr2 hs mem1 h2x h2y
  obtain ⟨i2x, i2y⟩ := good_roi_inside r2 v1 hr2 h2x h2y
  obtain ⟨_, _, x1, y1⟩ := good_roi_nonneg r1 b hr1
  obtain ⟨w2, hh2, x2, y2⟩ := good_roi_nonneg r2 v1 hr2
  rw [vw1] at i2x
  rw [vh1] at i2y
  obtain ⟨hmove, hr, hrx, hry⟩ := move_good_roi r1 r2 b hr1 h1x h1y w2 hh2 x2 y2 i2x i2y
  rw [hmove]
  refine ⟨hr, v2, hv2, ?_⟩
  obtain ⟨v, hv, d, vh, vw, vr, _, _, _, _⟩ :=
    subimage_good b s ⟨r2.x + r1.x, r2.y + r1.y, r2.width, r2.height⟩ hgood hr hs hmem hrx hry
  rw [hv]
  congr 1
  apply buffer_ext
  · rw [d, d2, d1, vr1]
    show b.data + (r2.y + r1.y).toNat * b.rowBytes + (r2.x + r1.x).toNat * s = _
    rw [toNat_add_nonneg _ _ y2 y1, toNat_add_nonneg _ _ x2 x1]
    ring
  · have : (v.height : Int) = (v2.height : Int) := by rw [vh, vh2]
    exact_mod_cast this
  · have : (v.width : Int) = (v2.width : Int) := by rw [vw, vw2]
    exact_mod_cast this
  · rw [vr, vr2, vr1]

theorem subimage_composes_witness :
    cvl_image_is_good (some ⟨1000, 10, 10, 40⟩) 4 = true ∧
    cvl_rect_is_good_roi ⟨3, 3, 4, 4⟩ ⟨1000, 10, 10, 40⟩ = true ∧
    cvl_image_subimage ⟨1000, 10, 10, 40⟩ ⟨3, 3, 4, 4⟩ 4 = some ⟨1132, 4, 4, 40⟩ ∧
    cvl_rect_is_good_roi ⟨1, 2, 2, 2⟩ ⟨1132, 4, 4, 40⟩ = true ∧
    cvl_rect_is_good_roi (cvl_rect_move ⟨1, 2, 2, 2⟩ (cvl_rect_origin ⟨3, 3, 4, 4⟩))
      ⟨1000, 10, 10, 40⟩ = true ∧
    ∃ v2, cvl_image_subimage ⟨1132, 4, 4, 40⟩ ⟨1, 2, 2, 2⟩ 4 = some v2 ∧
      cvl_image_subimage ⟨1000, 10, 10, 40⟩
        (cvl_rect_move ⟨1, 2, 2, 2⟩ (cvl_rect_origin ⟨3, 3, 4, 4⟩)) 4 = some v2 := by
  have e1 : cvl_image_subimage ⟨1000, 10, 10, 40⟩ ⟨3, 3, 4, 4⟩ 4 = some ⟨1132, 4, 4, 40⟩ := by
    decide
  obtain ⟨v1, hv1, himp⟩ :=
    subimage_composes ⟨1000, 10, 10, 40⟩ 4 ⟨3, 3, 4, 4⟩ ⟨1, 2, 2, 2⟩ (by decide) (by decide)
      (by decide) (by unfold CVLImageBuffer.inAddressSpace; decide)
      (by unfold isInt; decide) (by unfold isInt; decide)
      (by unfold isInt; decide) (by unfold isInt; decide)
  rw [e1] at hv1
  cases hv1
  obtain ⟨hr, v2, h2, h3⟩ := himp (by decide)
  exact ⟨by decide, by decide, e1, by decide, hr, v2, h2, h3⟩

/-! ## Algebra of the union -/

theorem rect_ext (a b : CVLRect) (h1 : a.x = b.x) (h2 : a.y = b.y)
    (h3 : a.width = b.width) (h4 : a.height = b.height) : a = b := by
  cases a
  cases b
  simp_all

theorem ite_lt_comm (p q : Int) :
    (if p < q then p else q) = (if q < p then q else p) := by
  split_ifs <;> omega

theorem ite_gt_comm (p q : Int) :
    (if p > q then p else q) = (if q > p then q else p) := by
  split_ifs <;> omega

/-- One axis of `cvl_rect_union` without overflow: the extent computed is
the distance from the smaller origin to the larger end. -/
theorem union_axis (ax aw bx bw : Int)
    (h1 : isInt (ax + aw)) (h2 : isInt (bx + bw))
    (h5 : isInt ((if ax < bx then ax else bx)
      + wrapInt ((if wrapInt (ax + aw) > wrapInt (bx + bw)
          then wrapInt (ax + aw) else wrapInt (bx + bw)) - (if ax < bx then ax else bx)))) :
    wrapInt ((if wrapInt (ax + aw) > wrapInt (bx + bw)
        then wrapInt (ax + aw) else wrapInt (bx + bw)) - (if ax < bx then ax else bx))
      = (if ax + aw > bx + bw then ax + aw else bx + bw) - (if ax < bx then ax else bx) := by
  rw [wrapInt_of_isInt _ h1, wrapInt_of_isInt _ h2] at h5 ⊢
  unfold isInt at h1 h2 h5
  have hhi : -2147483648 ≤ (if ax + aw > bx + bw then ax + aw else bx + bw)
      ∧ (if ax + aw > bx + bw then ax + aw else bx + bw) ≤ 2147483647 := by
    clear h5
    split_ifs <;> omega
  generalize (if ax + aw > bx + bw then ax + aw else bx + bw) = hi at h5 hhi ⊢
  generalize (if ax < bx then ax else bx) = lo at h5 ⊢
  unfold wrapInt at h5 ⊢
  omega

/-- Width and height of the union when no `int` addition overflows. -/
theorem union_extent (a b : CVLRect) (hfit : unionAdditionsFit a b) :
    (cvl_rect_union a b).width
      = (if a.x + a.width > b.x + b.width then a.x + a.width else b.x + b.width)
        - (if a.x < b.x then a.x else b.x) ∧
    (cvl_rect_union a b).height
      = (if a.y + a.height > b.y + b.height then a.y + a.height else b.y + b.height)
        - (if a.y < b.y then a.y else b.y) := by
  obtain ⟨h1, h2, h3, h4, h5, h6⟩ := hfit
  exact ⟨union_axis a.x a.width b.x b.width h1 h2 h5,
    union_axis a.y a.height b.y b.height h3 h4 h6⟩

/-- C22: `cvl_rect_union` is commutative, `cvl_rect_union a b = cvl_rect_union b a`
field for field, for all rects; it is idempotent, `cvl_rect_union a a = a`,
when no `int` addition overflows; and for non-degenerate `a` and `b`, no `int`
addition overflowing, the result is non-degenerate: width and height are
positive. -/
theorem union_comm_idem (a b : CVLRect) :
    cvl_rect_union a b = cvl_rect_union b a ∧
    (unionAdditionsFit a a → cvl_rect_union a a = a) ∧
    (0 < a.width → 0 < a.height → 0 < b.width → 0 < b.height → unionAdditionsFit a b →
      0 < (cvl_rect_union a b).width ∧ 0 < (cvl_rect_union a b).height) := by
  refine ⟨?_, ?_, ?_⟩
  · simp only [cvl_rect_union]
    rw [ite_lt_comm a.x b.x, ite_lt_comm a.y b.y,
      ite_gt_comm (wrapInt (a.x + a.width)) (wrapInt (b.x + b.width)),
      ite_gt_comm (wrapInt (a.y + a.height)) (wrapInt (b.y + b.height))]
  · intro hfit
    obtain ⟨ew, eh⟩ := union_extent a a hfit
    apply rect_ext
    · show (if a.x < a.x then a.x else a.x) = a.x
      split_ifs <;> rfl
    · show (if a.y < a.y then a.y else a.y) = a.y
      split_ifs <;> rfl
    · rw [ew]
      clear hfit eh ew
      split_ifs <;> omega
    · rw [eh]
      clear hfit eh ew
      split_ifs <;> omega
  · intro hw hh hw2 hh2 hfit
    obtain ⟨ew, eh⟩ := union_extent a b hfit
    rw [ew, eh]
    clear hfit ew eh
    constructor
    · split_ifs <;> omega
    · split_ifs <;> omega

theorem union_comm_idem_witness :
    cvl_rect_union ⟨0, 0, 4, 4⟩ ⟨2, 3, 5, 2⟩ = cvl_rect_union ⟨2, 3, 5, 2⟩ ⟨0, 0, 4, 4⟩ ∧
    cvl_rect_union ⟨0, 0, 4, 4⟩ ⟨0, 0, 4, 4⟩ = ⟨0, 0, 4, 4⟩ ∧
    0 < (cvl_rect_union ⟨0, 0, 4, 4⟩ ⟨2, 3, 5, 2⟩).width ∧
    0 < (cvl_rect_union ⟨0, 0, 4, 4⟩ ⟨2, 3, 5, 2⟩).height :=
  ⟨(union_comm_idem ⟨0, 0, 4, 4⟩ ⟨2, 3, 5, 2⟩).1,
   (union_comm_idem ⟨0, 0, 4, 4⟩ ⟨2, 3, 5, 2⟩).2.1 (by unfold unionAdditionsFit isInt; decide),
   (union_comm_idem ⟨0, 0, 4, 4⟩ ⟨2, 3, 5, 2⟩).2.2 (by decide) (by decide) (by decide)
     (by decide) (by unfold unionAdditionsFit isInt; decide)⟩

/-! ## Footprint of the bulk operations -/

/-- The row loop of `cvl_image_clear` is the sequence of its `memset` calls. -/
theorem clear_lines_eq_calls (b : CVLImageBuffer) (s : Nat) (m : Memory) (n : Nat) :
    cvl_image_clear_lines b s n m
      = runMemsets ((List.range n).map
          (fun y => (CVL_GET_LINE b y, mulSize b.width s))) m := by
  induction n with
  | zero => rfl
  | succ n ih =>
    unfold runMemsets at ih ⊢
    rw [List.range_succ, List.map_append, List.foldl_append, ← ih]
    rfl

/-- The row loop of `cvl_image_copy` is the sequence of its `memcpy` calls. -/
theorem copy_lines_eq_calls (src dst : CVLImageBuffer) (s : Nat) (m : Memory) (n : Nat) :
    cvl_image_copy_lines src dst s n m
      = runMemcpys ((List.range n).map
          (fun y => (CVL_GET_LINE dst y, CVL_GET_LINE src y, mulSize src.width s))) m := by
  induction n with
  | zero => rfl
  | succ n ih =>
    unfold runMemcpys at ih ⊢
    rw [List.range_succ, List.map_append, List.foldl_append, ← ih]
    rfl

theorem clear_eq_calls (m : Memory) (b : CVLImageBuffer) (s : Nat) :
    cvl_image_clear m b s = runMemsets (cvl_image_clear_calls b s) m := by
  unfold cvl_image_clear cvl_image_clear_calls
  split
  · rfl
  · exact clear_lines_eq_calls b s m b.height

theorem copy_eq_calls (m : Memory) (src dst : CVLImageBuffer) (s : Nat) :
    cvl_image_copy m src dst s
      = (cvl_image_copy_calls src dst s).map (fun cs => (runMemcpys cs m, dst)) := by
  unfold cvl_image_copy cvl_image_copy_calls
  split
  · split
    · split
      · split
        · rfl
        · simp only [Option.map_some', copy_lines_eq_calls]
      · rfl
    · rfl
  · rfl

/-- Every byte of the single block of a continuous buffer lies in the
footprint. -/
theorem block_inside (b : CVLImageBuffer) (s : Nat)
    (hgood : cvl_image_is_good (some b) s = true) (hmem : b.inAddressSpace s)
    (hcont : cvl_image_is_continuous b s = true) (a : Nat)
    (hlo : b.data ≤ a) (hhi : a < b.data + b.height * b.rowBytes) :
    a - b.data < b.footprint s := by
  obtain ⟨_, hh, _, _⟩ := good_facts b s hgood
  obtain ⟨hR, _, _⟩ := block_exact b s hgood hmem hcont
  have hsplit : b.height * b.rowBytes = (b.height - 1) * b.rowBytes + b.rowBytes := by
    have : b.height = (b.height - 1) + 1 := by omega
    conv_lhs => rw [this, Nat.succ_mul]
  unfold CVLImageBuffer.footprint
  omega

/-- Every pixel byte of a row lies in the footprint. -/
theorem row_inside (b : CVLImageBuffer) (s : Nat) (y : Nat) (hy : y < b.height) (a : Nat)
    (hlo : b.data ≤ a) (hhi : a < b.data + y * b.rowBytes + b.width * s) :
    a - b.data < b.footprint s := by
  have hle : y * b.rowBytes ≤ (b.height - 1) * b.rowBytes :=
    Nat.mul_le_mul_right _ (by omega)
  unfold CVLImageBuffer.footprint
  omega

/-- The `memset` calls of `cvl_image_clear` stay inside the footprint. -/
theorem clear_calls_inside (b : CVLImageBuffer) (s : Nat)
    (hgood : cvl_image_is_good (some b) s = true) (hmem : b.inAddressSpace s)
    (c : Nat × Nat) (hc : c ∈ cvl_image_clear_calls b s) (a : Nat)
    (hlo : c.1 ≤ a) (hhi : a < c.1 + c.2) :
    b.data ≤ a ∧ a - b.data < b.footprint s := by
  obtain ⟨hws, _, hline⟩ := buffer_exact b s hgood hmem
  unfold cvl_image_clear_calls at hc
  split at hc
  · rename_i hcont
    obtain ⟨_, hblock, _⟩ := block_exact b s hgood hmem hcont
    rw [List.mem_singleton] at hc
    subst hc
    simp only [hblock] at hlo hhi
    exact ⟨hlo, block_inside b s hgood hmem hcont a hlo hhi⟩
  · rw [List.mem_map] at hc
    obtain ⟨y, hy, rfl⟩ := hc
    rw [List.mem_range] at hy
    simp only [hws] at hlo hhi
    have hpos : 0 < b.width * s := by omega
    rw [(hline hpos y hy).1] at hlo hhi
    have hlo2 : b.data ≤ a := by omega
    exact ⟨hlo2, row_inside b s y hy a hlo2 hhi⟩

/-- The `memcpy` calls of `cvl_image_copy` stay inside the footprints of the
destination and of the source. -/
theorem copy_calls_inside (src dst : CVLImageBuffer) (s : Nat)
    (hsrc : cvl_image_is_good (some src) s = true)
    (hdst : cvl_image_is_good (some dst) s = true)
    (hwe : src.width = dst.width) (hhe : src.height = dst.height)
    (hsm : src.inAddressSpace s) (hdm : dst.inAddressSpace s)
    (cs : List (Nat × Nat × Nat)) (hcs : cvl_image_copy_calls src dst s = some cs)
    (c : Nat × Nat × Nat) (hc : c ∈ cs) (k : Nat) (hk : k < c.2.2) :
    (dst.data ≤ c.1 + k ∧ c.1 + k - dst.data < dst.footprint s) ∧
    (src.data ≤ c.2.1 + k ∧ c.2.1 + k - src.data < src.footprint s) := by
  obtain ⟨hwd, _, hlined⟩ := buffer_exact dst s hdst hdm
  obtain ⟨hws, _, hlines⟩ := buffer_exact src s hsrc hsm
  unfold cvl_image_copy_calls at hcs
  rw [if_pos hsrc, if_pos hdst, if_pos ⟨hwe, hhe⟩] at hcs
  split at hcs
  · rename_i hcont
    obtain ⟨hRs, _, hbs⟩ := block_exact src s hsrc hsm hcont.1
    obtain ⟨hRd, _, _⟩ := block_exact dst s hdst hdm hcont.2
    have hRR : dst.rowBytes = src.rowBytes := by rw [hRs, hRd, hwe]
    cases hcs
    rw [List.mem_singleton] at hc
    subst hc
    simp only [hbs] at hk
    dsimp only
    have hk2 : k < dst.height * dst.rowBytes := by rw [hRR, ← hhe]; exact hk
    exact ⟨⟨by omega, block_inside dst s hdst hdm hcont.2 _ (by omega) (by omega)⟩,
      ⟨by omega, block_inside src s hsrc hsm hcont.1 _ (by omega) (by omega)⟩⟩
  · cases hcs
    rw [List.mem_map] at hc
    obtain ⟨y, hy, rfl⟩ := hc
    rw [List.mem_range] at hy
    simp only [hws] at hk
    have hposs : 0 < src.width * s := by omega
    have hposd : 0 < dst.width * s := by rw [← hwe]; exact hposs
    simp only [(hlined hposd y (by omega)).1, (hlines hposs y hy).1]
    have hk2 : k < dst.width * s := by rw [← hwe]; exact hk
    exact ⟨⟨by omega, row_inside dst s y (by omega) _ (by omega) (by omega)⟩,
      ⟨by omega, row_inside src s y hy _ (by omega) (by omega)⟩⟩

/-- C21: the bulk operations stay inside the footprint.  For buffers that are
well-formed for `s` with pixel rows in the address space, every byte that a
`memset` call of `cvl_image_clear b s` writes, and every byte that a `memcpy`
call of `cvl_image_copy src dst s` (under its assertions) writes into `dst` or
reads from `src`, lies at an offset from the data pointer of the respective
buffer that is non-negative and strictly less than
`(height - 1) * rowBytes + width * s`; this holds on the single-block path of
continuous buffers, where one call touches `height * rowBytes` bytes, and on
the row-by-row path.  The calls are those of the operations: running them
gives the memory the operations leave. -/
theorem bulk_operations_stay_inside (m : Memory) (b src dst : CVLImageBuffer) (s : Nat)
    (hgood : cvl_image_is_good (some b) s = true) (hmem : b.inAddressSpace s)
    (hsrc : cvl_image_is_good (some src) s = true)
    (hdst : cvl_image_is_good (some dst) s = true)
    (hwe : src.width = dst.width) (hhe : src.height = dst.height)
    (hsm : src.inAddressSpace s) (hdm : dst.inAddressSpace s) :
    (cvl_image_clear m b s = runMemsets (cvl_image_clear_calls b s) m ∧
      (cvl_image_is_continuous b s = true →
        cvl_image_clear_calls b s = [(b.data, b.height * b.rowBytes)]) ∧
      ∀ c ∈ cvl_image_clear_calls b s, ∀ a : Nat, c.1 ≤ a → a < c.1 + c.2 →
        b.data ≤ a ∧ a - b.data < (b.height - 1) * b.rowBytes + b.width * s) ∧
    ∃ cs, cvl_image_copy_calls src dst s = some cs ∧
      cvl_image_copy m src dst s = some (runMemcpys cs m, dst) ∧
      (cvl_image_is_continuous src s = true ∧ cvl_image_is_continuous dst s = true →
        cs = [(dst.data, src.data, src.height * src.rowBytes)]) ∧
      ∀ c ∈ cs, ∀ k : Nat, k < c.2.2 →
        (dst.data ≤ c.1 + k ∧
          c.1 + k - dst.data < (dst.height - 1) * dst.rowBytes + dst.width * s) ∧
        (src.data ≤ c.2.1 + k ∧
          c.2.1 + k - src.data < (src.height - 1) * src.rowBytes + src.width * s) := by
  constructor
  · refine ⟨clear_eq_calls m b s, ?_, ?_⟩
    · intro hcont
      obtain ⟨_, hblock, _⟩ := block_exact b s hgood hmem hcont
      unfold cvl_image_clear_calls
      rw [if_pos hcont, hblock]
    · intro c hc a hlo hhi
      exact clear_calls_inside b s hgood hmem c hc a hlo hhi
  · have hsome : ∃ cs, cvl_image_copy_calls src dst s = some cs := by
      unfold cvl_image_copy_calls
      rw [if_pos hsrc, if_pos hdst, if_pos ⟨hwe, hhe⟩]
      split
      · exact ⟨_, rfl⟩
      · exact ⟨_, rfl⟩
    obtain ⟨cs, hcs⟩ := hsome
    refine ⟨cs, hcs, ?_, ?_, ?_⟩
    · rw [copy_eq_calls, hcs]
      rfl
    · intro hcont
      obtain ⟨_, _, hbs⟩ := block_exact src s hsrc hsm hcont.1
      unfold cvl_image_copy_calls at hcs
      rw [if_pos hsrc, if_pos hdst, if_pos ⟨hwe, hhe⟩, if_pos hcont, hbs] at hcs
      exact (Option.some.inj hcs).symm
    · intro c hc k hk
      exact copy_calls_inside src dst s hsrc hdst hwe hhe hsm hdm cs hcs c hc k hk

theorem bulk_operations_stay_inside_witness :
    cvl_image_is_good (some ⟨1000, 3, 2, 12⟩) 4 = true ∧
    cvl_image_is_good (some ⟨2000, 3, 2, 16⟩) 4 = true ∧
    (⟨1000, 3, 2, 12⟩ : CVLImageBuffer).inAddressSpace 4 ∧
    (⟨2000, 3, 2, 16⟩ : CVLImageBuffer).inAddressSpace 4 ∧
    cvl_image_clear_calls ⟨1000, 3, 2, 12⟩ 4 = [(1000, 8), (1012, 8), (1024, 8)] ∧
    (1000 ≤ 1031 ∧ 1031 - 1000 < (3 - 1) * 12 + 2 * 4) := by
  have hc : cvl_image_clear_calls ⟨1000, 3, 2, 12⟩ 4 = [(1000, 8), (1012, 8), (1024, 8)] := by
    decide
  have h := (bulk_operations_stay_inside (fun _ => 255) ⟨1000, 3, 2, 12⟩ ⟨1000, 3, 2, 12⟩
    ⟨2000, 3, 2, 16⟩ 4 (by decide) (by unfold CVLImageBuffer.inAddressSpace; decide)
    (by decide) (by decide) rfl rfl (by unfold CVLImageBuffer.inAddressSpace; decide)
    (by unfold CVLImageBuffer.inAddressSpace; decide)).1.2.2 (1024, 8)
    (by rw [hc]; decide) 1031 (by decide) (by decide)
  exact ⟨by decide, by decide, by unfold CVLImageBuffer.inAddressSpace; decide,
    by unfold CVLImageBuffer.inAddressSpace; decide, hc, h⟩

end CVLImage
